import Mathlib

/-!
Shallow embedding of the approximate-LRU cache repository.

The repository contains two variants of the replacement engine plus a
mutex-serialized facade:

* package approxlru (src/unnamed/part_000, first section): a string-keyed
  engine.  Modelled here as the structure SLRU and its operations.
* package lru (src/unnamed/part_000, second section): a generic engine
  LRU[K, V].  Modelled here as the structure GLRU and its operations.
* package lru (src/lru.go): the facade Cache wrapping the approxlru engine
  behind a mutex; the mutex itself is not modelled, only the sequential
  composite operations.

Modelling conventions:

* Keys and values are both modelled as Nat (Go string keys and interface
  values; only equality of keys is relevant to the engine, and the Go zero
  values "" and nil are modelled as 0).
* The recency stamps and the counter are Go int64 values, modelled as Int.
  The string engine increments its counter and panics when the result is
  negative as an int64; this is modelled by an explicit range check.  The
  generic engine increments without a check; the int64 wrap-around is
  modelled by wrap64.
* Go map[string]int is modelled by an association list (first binding
  wins) with insert-overwrite and delete, mirroring lookup, assignment and
  delete on the Go map.  Iteration order of a Go map is unspecified; the
  association list order stands in for it where the source iterates
  (only the Purge callback order, which no claim depends on).
* Randomness: the engine owns a PRNG; each operation that consumes random
  numbers takes them as explicit arguments (a probe base, a swap target, or
  a function giving the Fisher-Yates swap targets), with in-range
  hypotheses where the theorems need them.
* Go panics (index out of range, explicit panics) are modelled by Option:
  a none result is a run that aborts.  Operations that cannot panic return
  plain values.
* The eviction callback is modelled by a Bool flag (registered or not)
  plus an event list of the (key, value) pairs passed to the callback, in
  invocation order.
-/

/-- Entry mirrors the source struct entry: a recency stamp (0 is the
sentinel for an empty slot), a key and a value. -/
structure Entry where
  lastUsed : Int
  key : Nat
  value : Nat
deriving DecidableEq, Repr

/-- Zero value of Entry, the Go literal entry\x7b\x7d used to clear slots. -/
def e0 : Entry := ⟨0, 0, 0⟩

/-- Probe count of the eviction scan, the source constant randomProbes = 8. -/
def randomProbes : Nat := 8

/-- Callback event list: the (key, value) pairs passed to the eviction
callback, in invocation order. -/
abbrev Events := List (Nat × Nat)

/-! Association-list model of the Go map[K]int. -/

/-- Lookup in the association list modelling the Go map (first binding wins;
bindings have distinct keys in all states the engine builds). -/
def alookup : List (Nat × Nat) → Nat → Option Nat
  | [], _ => none
  | (a, b) :: t, k => if a = k then some b else alookup t k

/-- Insert-or-overwrite modelling Go map assignment m[k] = v. -/
def ainsert : List (Nat × Nat) → Nat → Nat → List (Nat × Nat)
  | [], k, v => [(k, v)]
  | (a, b) :: t, k, v => if a = k then (k, v) :: t else (a, b) :: ainsert t k v

/-- Deletion modelling the Go built-in delete(m, k). -/
def aerase : List (Nat × Nat) → Nat → List (Nat × Nat)
  | [], _ => []
  | (a, b) :: t, k => if a = k then t else (a, b) :: aerase t k

/-- Keys of the association list, for the distinct-keys invariant. -/
def akeys (m : List (Nat × Nat)) : List Nat := m.map Prod.fst

theorem alookup_ainsert_self (m : List (Nat × Nat)) (k v : Nat) :
    alookup (ainsert m k v) k = some v := by
  induction m with
  | nil => simp [ainsert, alookup]
  | cons p t ih =>
    obtain ⟨a, b⟩ := p
    by_cases h : a = k
    · simp [ainsert, h, alookup]
    · simp [ainsert, h, alookup, ih]

theorem alookup_mem_akeys (m : List (Nat × Nat)) (k : Nat)
    (h : alookup m k ≠ none) : k ∈ akeys m := by
  induction m with
  | nil => simp [alookup] at h
  | cons p t ih =>
    obtain ⟨a, b⟩ := p
    by_cases hk : a = k
    · simp [akeys, hk]
    · simp only [alookup, if_neg hk] at h
      simp only [akeys, List.map_cons, List.mem_cons]
      exact Or.inr (by simpa [akeys] using ih h)

theorem alookup_none_of_not_mem_akeys (m : List (Nat × Nat)) (k : Nat)
    (h : k ∉ akeys m) : alookup m k = none := by
  induction m with
  | nil => rfl
  | cons p t ih =>
    obtain ⟨a, b⟩ := p
    simp only [akeys, List.map_cons, List.mem_cons, not_or] at h
    have ha : a ≠ k := fun hc => h.1 hc.symm
    simp only [alookup, if_neg ha]
    exact ih (by simpa [akeys] using h.2)

theorem akeys_aerase_sub (m : List (Nat × Nat)) (k : Nat) :
    akeys (aerase m k) ⊆ akeys m := by
  induction m with
  | nil => simp [aerase]
  | cons p t ih =>
    obtain ⟨a, b⟩ := p
    by_cases h : a = k
    · simp only [aerase, if_pos h, akeys, List.map_cons]
      exact fun x hx => List.mem_cons_of_mem _ hx
    · simp only [aerase, if_neg h, akeys, List.map_cons]
      intro x hx
      rcases List.mem_cons.mp hx with h1 | h2
      · exact List.mem_cons.mpr (Or.inl h1)
      · exact List.mem_cons.mpr (Or.inr (ih h2))

theorem alookup_ainsert_ne (m : List (Nat × Nat)) (k v q : Nat) (hq : q ≠ k) :
    alookup (ainsert m k v) q = alookup m q := by
  induction m with
  | nil => simp [ainsert, alookup, Ne.symm hq]
  | cons p t ih =>
    obtain ⟨a, b⟩ := p
    by_cases h : a = k
    · subst h
      simp [ainsert, alookup, Ne.symm hq]
    · by_cases h2 : a = q <;> simp [ainsert, h, alookup, h2, ih, hq]

theorem length_ainsert_of_mem (m : List (Nat × Nat)) (k v : Nat)
    (h : alookup m k ≠ none) : (ainsert m k v).length = m.length := by
  induction m with
  | nil => simp [alookup] at h
  | cons p t ih =>
    obtain ⟨a, b⟩ := p
    by_cases hk : a = k
    · simp [ainsert, hk]
    · simp only [alookup, if_neg hk] at h
      simp [ainsert, hk, ih h]

theorem length_ainsert_of_notmem (m : List (Nat × Nat)) (k v : Nat)
    (h : alookup m k = none) : (ainsert m k v).length = m.length + 1 := by
  induction m with
  | nil => simp [ainsert]
  | cons p t ih =>
    obtain ⟨a, b⟩ := p
    by_cases hk : a = k
    · simp [alookup, hk] at h
    · simp only [alookup, if_neg hk] at h
      simp [ainsert, hk, ih h]

theorem alookup_aerase_self (m : List (Nat × Nat)) (k : Nat)
    (hnd : (akeys m).Nodup) : alookup (aerase m k) k = none := by
  induction m with
  | nil => simp [aerase, alookup]
  | cons p t ih =>
    obtain ⟨a, b⟩ := p
    simp only [akeys, List.map_cons, List.nodup_cons] at hnd
    by_cases h : a = k
    · subst h
      simp only [aerase, if_pos rfl]
      exact alookup_none_of_not_mem_akeys t a (by simpa [akeys] using hnd.1)
    · simp only [aerase, if_neg h, alookup, if_neg h]
      exact ih (by simpa [akeys] using hnd.2)

theorem alookup_aerase_ne (m : List (Nat × Nat)) (k q : Nat) (hq : q ≠ k)
    (hnd : (akeys m).Nodup) : alookup (aerase m k) q = alookup m q := by
  induction m with
  | nil => simp [aerase]
  | cons p t ih =>
    obtain ⟨a, b⟩ := p
    simp only [akeys, List.map_cons, List.nodup_cons] at hnd
    by_cases h : a = k
    · subst h
      have hne : ¬ a = q := fun hc => hq hc.symm
      simp [aerase, alookup, hne]
    · by_cases h2 : a = q <;>
        simp [aerase, h, alookup, h2, hq, ih (by simpa [akeys] using hnd.2)]

theorem length_aerase_of_mem (m : List (Nat × Nat)) (k : Nat)
    (h : alookup m k ≠ none) : (aerase m k).length + 1 = m.length := by
  induction m with
  | nil => simp [alookup] at h
  | cons p t ih =>
    obtain ⟨a, b⟩ := p
    by_cases hk : a = k
    · simp [aerase, hk]
    · simp only [alookup, if_neg hk] at h
      simp only [aerase, if_neg hk, List.length_cons]
      rw [ih h]

theorem akeys_ainsert (m : List (Nat × Nat)) (k v : Nat) (h : alookup m k ≠ none) :
    akeys (ainsert m k v) = akeys m := by
  induction m with
  | nil => simp [alookup] at h
  | cons p t ih =>
    obtain ⟨a, b⟩ := p
    by_cases hk : a = k
    · simp [ainsert, hk, akeys]
    · simp only [alookup, if_neg hk] at h
      simp only [ainsert, if_neg hk, akeys, List.map_cons]
      rw [show List.map Prod.fst (ainsert t k v) = akeys (ainsert t k v) from rfl,
        ih h]
      rfl

theorem akeys_ainsert_notmem (m : List (Nat × Nat)) (k v : Nat)
    (h : alookup m k = none) : akeys (ainsert m k v) = akeys m ++ [k] := by
  induction m with
  | nil => simp [ainsert, akeys]
  | cons p t ih =>
    obtain ⟨a, b⟩ := p
    by_cases hk : a = k
    · simp [alookup, hk] at h
    · simp only [alookup, if_neg hk] at h
      simp only [ainsert, if_neg hk, akeys, List.map_cons, List.cons_append]
      rw [show List.map Prod.fst (ainsert t k v) = akeys (ainsert t k v) from rfl,
        ih h]
      rfl

theorem nodup_akeys_aerase (m : List (Nat × Nat)) (k : Nat)
    (hnd : (akeys m).Nodup) : (akeys (aerase m k)).Nodup := by
  induction m with
  | nil => simp [aerase, akeys]
  | cons p t ih =>
    obtain ⟨a, b⟩ := p
    simp only [akeys, List.map_cons, List.nodup_cons] at hnd
    by_cases h : a = k
    · simpa [aerase, h, akeys] using hnd.2
    · simp only [aerase, if_neg h, akeys, List.map_cons, List.nodup_cons]
      refine ⟨fun hmem => ?_, by simpa [akeys] using ih (by simpa [akeys] using hnd.2)⟩
      exact hnd.1 (akeys_aerase_sub t k hmem)

/-! Eviction probe: the offset-selection scan shared by LRU.removeOldest
(string engine) and LRU[K, V].findOldest (generic engine).  The two source
loop bodies are character-for-character identical. -/

/-- Recency stamp stored at an array offset (out-of-range offsets read the
zero entry; every use below is in range in the states the theorems touch,
and the Go source would abort on an out-of-range index). -/
def stampAt (data : List Entry) (off : Nat) : Int := (data.getD off e0).lastUsed

/-- Loop body of removeOldest / findOldest: keep the candidate offset whose
stamp is strictly smaller than the best so far.  The accumulator carries the
best offset and its stamp (the source copies the entry to the stack; only
its lastUsed field is read). -/
def probeStep (data : List Entry) (acc : Nat × Int) (off : Nat) : Nat × Int :=
  if stampAt data off < acc.2 then (off, stampAt data off) else acc

/-- Offset selected by LRU.removeOldest / LRU[K, V].findOldest given the
cache length n = c.Len() and the random probe base in [0, n).  The source
has a fast path without modular reduction when the probe window does not
wrap, and a wrap path otherwise; both are modelled faithfully. -/
def findOldestOff (data : List Entry) (n base : Nat) : Nat :=
  let start : Nat × Int := (base, stampAt data base)
  let r :=
    if base + randomProbes - 1 < n then
      (List.range' 1 (randomProbes - 1)).foldl
        (fun acc j => probeStep data acc (base + j)) start
    else
      (List.range' 1 (randomProbes - 1)).foldl
        (fun acc j => probeStep data acc ((base + j) % n)) start
  r.1

theorem foldl_probeStep_spec (data : List Entry) (offs : List Nat) :
    ∀ p : Nat,
      (offs.foldl (probeStep data) (p, stampAt data p)).2 =
        stampAt data (offs.foldl (probeStep data) (p, stampAt data p)).1 ∧
      ∃ k, k < (p :: offs).length ∧
        (offs.foldl (probeStep data) (p, stampAt data p)).1 = (p :: offs).getD k 0 ∧
        (∀ q ∈ p :: offs,
          stampAt data (offs.foldl (probeStep data) (p, stampAt data p)).1 ≤
            stampAt data q) ∧
        (∀ m, m < k →
          stampAt data (offs.foldl (probeStep data) (p, stampAt data p)).1 <
            stampAt data ((p :: offs).getD m 0)) := by
  induction offs with
  | nil =>
    intro p
    refine ⟨rfl, 0, by simp, by simp, by simp, by simp⟩
  | cons q t ih =>
    intro p
    by_cases hlt : stampAt data q < stampAt data p
    · have hstep : probeStep data (p, stampAt data p) q = (q, stampAt data q) := by
        simp [probeStep, hlt]
      obtain ⟨hs, k, hk, heq, hmin, hfirst⟩ := ih q
      rw [List.foldl_cons, hstep]
      refine ⟨hs, k + 1, by simpa using hk, by simpa using heq, ?_, ?_⟩
      · intro r hr
        rcases List.mem_cons.mp hr with h1 | h2
        · rw [h1]
          have : stampAt data (t.foldl (probeStep data) (q, stampAt data q)).1 ≤
              stampAt data q := hmin q (List.mem_cons_self q t)
          exact le_of_lt (lt_of_le_of_lt this hlt)
        · exact hmin r h2
      · intro m hm
        match m with
        | 0 =>
          have : stampAt data (t.foldl (probeStep data) (q, stampAt data q)).1 ≤
              stampAt data q := hmin q (List.mem_cons_self q t)
          simpa using lt_of_le_of_lt this hlt
        | Nat.succ m2 =>
          have hm2 : m2 < k := by omega
          simpa using hfirst m2 hm2
    · have hstep : probeStep data (p, stampAt data p) q = (p, stampAt data p) := by
        simp [probeStep, hlt]
      obtain ⟨hs, k, hk, heq, hmin, hfirst⟩ := ih p
      rw [List.foldl_cons, hstep]
      have hle : stampAt data p ≤ stampAt data q := le_of_not_lt hlt
      have hres : stampAt data (t.foldl (probeStep data) (p, stampAt data p)).1 ≤
          stampAt data p := hmin p (List.mem_cons_self p t)
      cases k with
      | zero =>
        refine ⟨hs, 0, by simp, by simpa using heq, ?_, by simp⟩
        intro r hr
        rcases List.mem_cons.mp hr with h1 | h2
        · rw [h1]; exact hmin p (List.mem_cons_self p t)
        · rcases List.mem_cons.mp h2 with h3 | h4
          · rw [h3]; exact le_trans hres hle
          · exact hmin r (List.mem_cons_of_mem p h4)
      | succ k2 =>
        refine ⟨hs, k2 + 2, by simpa using hk, by simpa using heq, ?_, ?_⟩
        · intro r hr
          rcases List.mem_cons.mp hr with h1 | h2
          · rw [h1]; exact hmin p (List.mem_cons_self p t)
          · rcases List.mem_cons.mp h2 with h3 | h4
            · rw [h3]; exact le_trans hres hle
            · exact hmin r (List.mem_cons_of_mem p h4)
        · intro m hm
          match m with
          | 0 =>
            have : (0 : Nat) < k2 + 1 := by omega
            simpa using hfirst 0 this
          | 1 =>
            have h0 : stampAt data (t.foldl (probeStep data) (p, stampAt data p)).1 <
                stampAt data p := by simpa using hfirst 0 (by omega)
            simpa using lt_of_lt_of_le h0 hle
          | Nat.succ (Nat.succ m2) =>
            have hm2 : m2 + 1 < k2 + 1 := by omega
            simpa using hfirst (m2 + 1) hm2

theorem foldl_congr_offsets (data : List Entry) (f g : Nat → Nat)
    (l : List Nat) (hfg : ∀ x ∈ l, f x = g x) :
    ∀ acc : Nat × Int,
      l.foldl (fun a j => probeStep data a (f j)) acc =
        l.foldl (fun a j => probeStep data a (g j)) acc := by
  induction l with
  | nil => intro acc; rfl
  | cons x t ih =>
    intro acc
    simp only [List.foldl_cons]
    rw [hfg x (List.mem_cons_self x t)]
    exact ih (fun y hy => hfg y (List.mem_cons_of_mem x hy)) _

theorem findOldestOff_eq_wrap (data : List Entry) (n base : Nat) :
    findOldestOff data n base =
      ((List.range' 1 (randomProbes - 1)).foldl
        (fun acc j => probeStep data acc ((base + j) % n))
        (base, stampAt data base)).1 := by
  unfold findOldestOff
  by_cases h : base + randomProbes - 1 < n
  · simp only [if_pos h]
    rw [foldl_congr_offsets data (fun j => base + j) (fun j => (base + j) % n)]
    intro x hx
    rw [List.mem_range'_1] at hx
    have : base + x < n := by
      have : randomProbes = 8 := rfl
      omega
    exact (Nat.mod_eq_of_lt this).symm
  · simp only [if_neg h]

/-! String engine: package approxlru, struct LRU (modelled as SLRU). -/

/-- State of the approxlru.LRU engine.  The PRNG is not part of the state;
random draws are arguments of the operations.  onEvict is true when an
eviction callback is registered. -/
structure SLRU where
  items : List (Nat × Nat)
  data : List Entry
  counter : Int
  size : Int
  onEvict : Bool
deriving DecidableEq, Repr

/-- NewLRU (string engine): rejects size <= 0, otherwise an empty cache with
counter 1.  The full-capacity allocation has no observable content. -/
def SLRU.NewLRU (size : Int) (onEvict : Bool) : Option SLRU :=
  if size ≤ 0 then none
  else some { items := [], data := [], counter := 1, size := size, onEvict := onEvict }

/-- getCounter (string engine): heal a zero counter to 1, return it, then
increment.  The source panics when the incremented int64 is negative, which
for an in-range int64 argument happens exactly when the successor leaves
[0, 2 ^ 63); that run is modelled as none. -/
def SLRU.getCounter (c : SLRU) : Option (Int × SLRU) :=
  let cnt := if c.counter = 0 then 1 else c.counter
  if cnt + 1 < 0 ∨ 2 ^ 63 ≤ cnt + 1 then none
  else some (cnt, { c with counter := cnt + 1 })

/-- Swap body of the string-engine shuffle closure: repoint the two keys in
the index map, then swap the two slots.  The source reads both entries
before mutating, as modelled. -/
def SLRU.swapStep (c : SLRU) (i j : Nat) : SLRU :=
  { c with
    items := ainsert (ainsert c.items (c.data.getD i e0).key j) (c.data.getD j e0).key i,
    data := (c.data.set i (c.data.getD j e0)).set j (c.data.getD i e0) }

/-- Fisher-Yates loop of rand.Shuffle: for i from n-1 down to 1, swap slot i
with slot js i, where js i is the random draw from [0, i+1). -/
def SLRU.shuffleAux (js : Nat → Nat) : Nat → SLRU → SLRU
  | 0, c => c
  | i + 1, c => SLRU.shuffleAux js i (c.swapStep (i + 1) (js (i + 1)))

/-- shuffle (string engine): Fisher-Yates over the whole data array using
the map-updating swap. -/
def SLRU.shuffle (c : SLRU) (js : Nat → Nat) : SLRU :=
  SLRU.shuffleAux js (c.data.length - 1) c

/-- removeElement (string engine): empty slots are left untouched; a live
victim slot is overwritten with the zero entry in place (no truncation, no
swap), its key is deleted from the map, and the callback is invoked. -/
def SLRU.removeElement (c : SLRU) (i : Nat) (ent : Entry) : SLRU × Events :=
  if ent.lastUsed = 0 then (c, [])
  else
    ({ c with data := c.data.set i e0, items := aerase c.items ent.key },
      if c.onEvict then [(ent.key, ent.value)] else [])

/-- removeOldest (string engine): returns -1 when Len() is 0, otherwise
probes from the random base, removes the selected victim and returns its
offset.  base is the random draw from [0, Len()). -/
def SLRU.removeOldest (c : SLRU) (base : Nat) : Int × SLRU × Events :=
  let size := c.items.length
  if size = 0 then (-1, c, [])
  else
    let off := findOldestOff c.data size base
    let r := c.removeElement off (c.data.getD off e0)
    ((off : Int), r.1, r.2)

/-- Add (string engine).  js are the shuffle draws used only when the array
just reached capacity for the first time; base is the probe base used only
on the eviction path.  A negative offset from removeOldest would make the
source index data[-1] and abort, modelled as none. -/
def SLRU.Add (c : SLRU) (key value : Nat) (js : Nat → Nat) (base : Nat) :
    Option (Bool × SLRU × Events) :=
  match c.getCounter with
  | none => none
  | some (now, c1) =>
    match alookup c1.items key with
    | some i =>
      let old := c1.data.getD i e0
      some (false, { c1 with data := c1.data.set i ⟨now, old.key, value⟩ }, [])
    | none =>
      if c1.size = 0 then some (false, c1, [])
      else
        let ent : Entry := ⟨now, key, value⟩
        if (c1.data.length : Int) < c1.size then
          let i := c1.data.length
          let c2 := { c1 with data := c1.data ++ [ent], items := ainsert c1.items key i }
          let c3 := if (c2.data.length : Int) = c2.size then c2.shuffle js else c2
          some (false, c3, [])
        else
          let r := c1.removeOldest base
          match r.1 with
          | Int.negSucc _ => none
          | Int.ofNat off =>
            let c2 := r.2.1
            let c3 := { c2 with data := c2.data.set off ent, items := ainsert c2.items key off }
            some (true, c3, r.2.2)

/-- Get (string engine): on a hit the slot is re-stamped with a fresh
counter value; a key mismatch between map and slot returns a normal miss; a
map offset outside the array would abort (none).  Misses touch nothing. -/
def SLRU.Get (c : SLRU) (key : Nat) : Option (Option Nat × Bool × SLRU) :=
  match alookup c.items key with
  | some i =>
    if i < c.data.length then
      let ent := c.data.getD i e0
      if ent.key ≠ key then some (none, false, c)
      else
        match c.getCounter with
        | none => none
        | some (now, c1) =>
          some (some ent.value, true,
            { c1 with data := c1.data.set i ⟨now, ent.key, ent.value⟩ })
    else none
  | none => some (none, false, c)

/-- Contains (string engine): map lookup only, no state change. -/
def SLRU.Contains (c : SLRU) (key : Nat) : Bool :=
  (alookup c.items key).isSome

/-- Peek (string engine): value without recency update; a map offset
outside the array would abort (none). -/
def SLRU.Peek (c : SLRU) (key : Nat) : Option (Option Nat × Bool) :=
  match alookup c.items key with
  | some i =>
    if i < c.data.length then some (some ((c.data.getD i e0).value), true) else none
  | none => some (none, false)

/-- Remove (string engine): delegates to removeElement on the mapped slot
(which zeroes in place); absent keys report false. -/
def SLRU.Remove (c : SLRU) (key : Nat) : Option (Bool × SLRU × Events) :=
  match alookup c.items key with
  | some i =>
    if i < c.data.length then
      let r := c.removeElement i (c.data.getD i e0)
      some (true, r.1, r.2)
    else none
  | none => some (false, c, [])

/-- Len (string engine): size of the index map. -/
def SLRU.Len (c : SLRU) : Nat := c.items.length

/-- Purge (string engine): callback for every live mapped entry (in map
iteration order), then empty the data array and replace the map. -/
def SLRU.Purge (c : SLRU) : SLRU × Events :=
  ({ c with data := [], items := [] },
    if c.onEvict then
      (c.items.filterMap fun p =>
        let ent := c.data.getD p.2 e0
        if ent.lastUsed > 0 then some (p.1, ent.value) else none)
    else [])

/-- Descending comparator byLastUsed of the string engine (also the
slices.SortFunc comparator of the generic engine).  Both source sorts are
unstable comparison sorts; the model fixes one order consistent with the
comparator (they agree whenever live stamps are distinct, which holds in
every constructor-reachable state). -/
def sortByLastUsed (data : List Entry) : List Entry :=
  List.insertionSort (fun a b => b.lastUsed ≤ a.lastUsed) data

/-- Index-map rebuild loop of Resize: for each slot of the sorted array,
repoint the key of a live entry to its new offset (empty slots skipped). -/
def rebuildAux (m : List (Nat × Nat)) (i : Nat) : List Entry → List (Nat × Nat)
  | [] => m
  | e :: t => rebuildAux (if e.lastUsed = 0 then m else ainsert m e.key i) (i + 1) t

/-- Removal loop of the string-engine Resize: for loop index i, remove the
slot oldSize-1-i (the array keeps its length; victims are zeroed in
place).  A negative slot index would abort (none). -/
def SLRU.resizeLoopAux (oldSize : Nat) : SLRU → Nat → Nat → Option (SLRU × Events)
  | c, _, 0 => some (c, [])
  | c, i, rem + 1 =>
    let j : Int := (oldSize : Int) - 1 - (i : Int)
    if j < 0 ∨ (c.data.length : Int) ≤ j then none
    else
      let r := c.removeElement j.toNat (c.data.getD j.toNat e0)
      match SLRU.resizeLoopAux oldSize r.1 (i + 1) rem with
      | none => none
      | some (c2, evs) => some (c2, r.2 ++ evs)

/-- Resize (string engine): sort descending by lastUsed, rebuild the map,
remove the last diff slots, install the new size, truncate or keep the
array (a negative size would make the slice abort: none), then shuffle. -/
def SLRU.Resize (c : SLRU) (size : Int) (js : Nat → Nat) :
    Option (Int × SLRU × Events) :=
  let diff := max 0 ((c.items.length : Int) - size)
  let sorted := sortByLastUsed c.data
  let c1 := { c with data := sorted, items := rebuildAux c.items 0 sorted }
  let oldSize := sorted.length
  match SLRU.resizeLoopAux oldSize c1 0 diff.toNat with
  | none => none
  | some (c2, evs) =>
    if size < 0 then none
    else
      let newData := if size < (oldSize : Int) then c2.data.take size.toNat else c2.data
      let c3 := { c2 with size := size, data := newData }
      some (diff, c3.shuffle js, evs)

/-! Generic engine: package lru, struct LRU[K, V] (modelled as GLRU). -/

/-- Wrap an unbounded integer to the int64 it denotes, for the unchecked
counter increment of the generic engine. -/
def wrap64 (x : Int) : Int := (x + 2 ^ 63) % 2 ^ 64 - 2 ^ 63

/-- State of the lru.LRU[K, V] engine; conventions as for SLRU. -/
structure GLRU where
  items : List (Nat × Nat)
  data : List Entry
  counter : Int
  size : Int
  onEvict : Bool
deriving DecidableEq, Repr

/-- NewLRU (generic engine): same size <= 0 rejection as the string engine. -/
def GLRU.NewLRU (size : Int) (onEvict : Bool) : Option GLRU :=
  if size ≤ 0 then none
  else some { items := [], data := [], counter := 1, size := size, onEvict := onEvict }

/-- getCounter (generic engine): heal a zero counter to 1, return it, then
increment; there is no overflow check, the int64 increment wraps. -/
def GLRU.getCounter (c : GLRU) : Int × GLRU :=
  let cnt := if c.counter = 0 then 1 else c.counter
  (cnt, { c with counter := wrap64 (cnt + 1) })

/-- swap (generic engine): identical slots are left untouched; otherwise
repoint the two keys in the map and swap the slots. -/
def GLRU.swap (c : GLRU) (i j : Nat) : GLRU :=
  if i = j then c
  else
    { c with
      items := ainsert (ainsert c.items (c.data.getD i e0).key j) (c.data.getD j e0).key i,
      data := (c.data.set i (c.data.getD j e0)).set j (c.data.getD i e0) }

/-- addShuffled (generic engine): the guard panics when the array is
already full (none); otherwise append the entry, record its index, and swap
it with the random slot j drawn from [0, new length). -/
def GLRU.addShuffled (c : GLRU) (ent : Entry) (j : Nat) : Option GLRU :=
  if (c.data.length : Int) = c.size then none
  else
    let i := c.data.length
    let c1 := { c with data := c.data ++ [ent], items := ainsert c.items ent.key i }
    some (c1.swap i j)

/-- removeElement (generic engine): the guard aborts when the slot index
reaches the capacity or the array is empty (none).  With doSwap the victim
is swapped to the back, the back is zeroed and the array truncated by one;
without doSwap (Add-eviction path) the array is untouched.  Either way the
key is deleted and the callback invoked. -/
def GLRU.removeElement (c : GLRU) (i : Nat) (ent : Entry) (doSwap : Bool) :
    Option (GLRU × Events) :=
  if c.size ≤ (i : Int) ∨ c.data.length = 0 then none
  else
    let c1 :=
      if doSwap then
        let c2 := c.swap i (c.data.length - 1)
        { c2 with data := (c2.data.set (c2.data.length - 1) e0).take (c2.data.length - 1) }
      else c
    some ({ c1 with items := aerase c1.items ent.key },
      if c.onEvict then [(ent.key, ent.value)] else [])

/-- findOldest (generic engine): shared probe; reports false on an empty
cache instead of removing. -/
def GLRU.findOldest (c : GLRU) (base : Nat) : Option Nat :=
  let size := c.items.length
  if size = 0 then none
  else some (findOldestOff c.data size base)

/-- Add (generic engine).  j is the placement-randomization draw used on
the append path; base is the probe base used on the eviction path.  The
source panics when findOldest reports failure on a full cache (none). -/
def GLRU.Add (c : GLRU) (key value : Nat) (j base : Nat) :
    Option (Bool × GLRU × Events) :=
  let r0 := c.getCounter
  let now := r0.1
  let c1 := r0.2
  match alookup c1.items key with
  | some i =>
    let old := c1.data.getD i e0
    some (false, { c1 with data := c1.data.set i ⟨now, old.key, value⟩ }, [])
  | none =>
    if c1.size = 0 then some (false, c1, [])
    else
      let ent : Entry := ⟨now, key, value⟩
      if (c1.data.length : Int) = c1.size then
        match c1.findOldest base with
        | some i =>
          match c1.removeElement i (c1.data.getD i e0) false with
          | some (c2, ev) =>
            some (true, { c2 with data := c2.data.set i ent, items := ainsert c2.items key i }, ev)
          | none => none
        | none => none
      else
        match c1.addShuffled ent j with
        | some c2 => some (false, c2, [])
        | none => none

/-- Get (generic engine): same behaviour as the string engine; the
mismatch branch returns the zero value and false. -/
def GLRU.Get (c : GLRU) (key : Nat) : Option (Option Nat × Bool × GLRU) :=
  match alookup c.items key with
  | some i =>
    if i < c.data.length then
      let ent := c.data.getD i e0
      if ent.key ≠ key then some (none, false, c)
      else
        let r0 := c.getCounter
        some (some ent.value, true,
          { r0.2 with data := r0.2.data.set i ⟨r0.1, ent.key, ent.value⟩ })
    else none
  | none => some (none, false, c)

/-- Contains (generic engine). -/
def GLRU.Contains (c : GLRU) (key : Nat) : Bool :=
  (alookup c.items key).isSome

/-- Peek (generic engine). -/
def GLRU.Peek (c : GLRU) (key : Nat) : Option (Option Nat × Bool) :=
  match alookup c.items key with
  | some i =>
    if i < c.data.length then some (some ((c.data.getD i e0).value), true) else none
  | none => some (none, false)

/-- Remove (generic engine): removeElement with doSwap (swap to the back
and truncate); absent keys report false. -/
def GLRU.Remove (c : GLRU) (key : Nat) : Option (Bool × GLRU × Events) :=
  match alookup c.items key with
  | some i =>
    if i < c.data.length then
      match c.removeElement i (c.data.getD i e0) true with
      | some (c1, ev) => some (true, c1, ev)
      | none => none
    else none
  | none => some (false, c, [])

/-- Len (generic engine). -/
def GLRU.Len (c : GLRU) : Nat := c.items.length

/-- Purge (generic engine): as the string engine. -/
def GLRU.Purge (c : GLRU) : GLRU × Events :=
  ({ c with data := [], items := [] },
    if c.onEvict then
      (c.items.filterMap fun p =>
        let ent := c.data.getD p.2 e0
        if ent.lastUsed > 0 then some (p.1, ent.value) else none)
    else [])

/-- Removal loop of the generic Resize: for loop index i, remove slot
oldSize-1-i with doSwap, so the array shrinks by one each iteration.  A
negative or out-of-range slot index aborts (none). -/
def GLRU.resizeLoopAux (oldSize : Nat) : GLRU → Nat → Nat → Option (GLRU × Events)
  | c, _, 0 => some (c, [])
  | c, i, rem + 1 =>
    let j : Int := (oldSize : Int) - 1 - (i : Int)
    if j < 0 ∨ (c.data.length : Int) ≤ j then none
    else
      match c.removeElement j.toNat (c.data.getD j.toNat e0) true with
      | none => none
      | some (c1, ev) =>
        match GLRU.resizeLoopAux oldSize c1 (i + 1) rem with
        | none => none
        | some (c2, evs) => some (c2, ev ++ evs)

/-- Resize (generic engine): sort descending, rebuild the map, remove the
last diff entries (each with swap-and-truncate), install the new size and
truncate or keep the array.  Unlike the string engine there is no final
shuffle.  A negative size would make the slice abort: none. -/
def GLRU.Resize (c : GLRU) (size : Int) : Option (Int × GLRU × Events) :=
  let diff := max 0 ((c.items.length : Int) - size)
  let sorted := sortByLastUsed c.data
  let c1 := { c with data := sorted, items := rebuildAux c.items 0 sorted }
  let oldSize := sorted.length
  match GLRU.resizeLoopAux oldSize c1 0 diff.toNat with
  | none => none
  | some (c2, evs) =>
    if size < 0 then none
    else
      let newData :=
        if size < (oldSize : Int) then
          if size.toNat ≤ c2.data.length then c2.data.take size.toNat else c2.data
        else c2.data
      some (diff, { c2 with size := size, data := newData }, evs)

/-! Serialized facade: package lru (src/lru.go), struct Cache wrapping the
string engine.  The mutex serializes callers and is not modelled. -/

/-- ContainsOrAdd of the facade: under the lock, a present key returns
(true, false) without touching the engine; an absent key delegates to Add
and reports its eviction result. -/
def Cache.ContainsOrAdd (c : SLRU) (key value : Nat) (js : Nat → Nat) (base : Nat) :
    Option ((Bool × Bool) × SLRU × Events) :=
  if c.Contains key then some ((true, false), c, [])
  else
    match c.Add key value js base with
    | some (evicted, c1, ev) => some ((false, evicted), c1, ev)
    | none => none

/-! Probe characterization: claims C2 and C9. -/

theorem probeList_getD (base n m : Nat) (hbase : base < n) (hm : m < randomProbes) :
    (base :: (List.range' 1 (randomProbes - 1)).map (fun j => (base + j) % n)).getD m 0 =
      (base + m) % n := by
  have hm8 : m < 8 := hm
  interval_cases m <;> simp [randomProbes, Nat.mod_eq_of_lt hbase]

theorem mem_probeList (base n j : Nat) (hbase : base < n) (hj : j < randomProbes) :
    (base + j) % n ∈
      base :: (List.range' 1 (randomProbes - 1)).map (fun j => (base + j) % n) := by
  match j with
  | 0 =>
    simp [Nat.mod_eq_of_lt hbase]
  | Nat.succ j2 =>
    apply List.mem_cons_of_mem
    apply List.mem_map.mpr
    refine ⟨j2 + 1, ?_, rfl⟩
    rw [List.mem_range'_1]
    have : j2 + 1 < randomProbes := hj
    have h8 : j2 + 1 < 8 := this
    omega

theorem findOldestOff_first_minimum (data : List Entry) (n base : Nat) (hbase : base < n) :
    ∃ k, k < randomProbes ∧
      findOldestOff data n base = (base + k) % n ∧
      (∀ j, j < randomProbes →
        stampAt data (findOldestOff data n base) ≤ stampAt data ((base + j) % n)) ∧
      (∀ m, m < k →
        stampAt data (findOldestOff data n base) < stampAt data ((base + m) % n)) := by
  rw [findOldestOff_eq_wrap]
  rw [show (fun (acc : Nat × Int) (j : Nat) => probeStep data acc ((base + j) % n)) =
    (fun (acc : Nat × Int) (j : Nat) => probeStep data acc ((fun j => (base + j) % n) j))
    from rfl]
  rw [← List.foldl_map (fun j => (base + j) % n) (probeStep data)]
  obtain ⟨hs, k, hk, heq, hmin, hfirst⟩ :=
    foldl_probeStep_spec data
      ((List.range' 1 (randomProbes - 1)).map (fun j => (base + j) % n)) base
  have hklen : k < randomProbes := by
    simpa [randomProbes] using hk
  refine ⟨k, hklen, ?_, ?_, ?_⟩
  · rw [heq, probeList_getD base n k hbase hklen]
  · intro j hj
    exact hmin _ (mem_probeList base n j hbase hj)
  · intro m hm
    have := hfirst m hm
    rwa [probeList_getD base n m hbase (lt_trans hm hklen)] at this

/-- C2: for a cache of n live entries and probe base in [0, n), the
eviction probe of LRU.removeOldest / LRU[K, V].findOldest returns the slot
among base, base+1, ..., base+7 taken modulo n whose lastUsed stamp is
smallest, ties broken in favour of the slot probed first. -/
theorem C2_probe_first_minimum (data : List Entry) (n base : Nat) (hbase : base < n) :
    ∃ k, k < randomProbes ∧
      findOldestOff data n base = (base + k) % n ∧
      (∀ j, j < randomProbes →
        stampAt data (findOldestOff data n base) ≤ stampAt data ((base + j) % n)) ∧
      (∀ m, m < k →
        stampAt data (findOldestOff data n base) < stampAt data ((base + m) % n)) :=
  findOldestOff_first_minimum data n base hbase

/-- Selected offset is always inside [0, n) for a nonempty probe range. -/
theorem findOldestOff_lt (data : List Entry) (n base : Nat) (hbase : base < n) :
    findOldestOff data n base < n := by
  obtain ⟨k, _, heq, _, _⟩ := findOldestOff_first_minimum data n base hbase
  rw [heq]
  exact Nat.mod_lt _ (by omega)

/-- Selected offset attains the minimum stamp over all of [0, n) whenever
n is at most the probe count. -/
theorem findOldestOff_small_min (data : List Entry) (n base : Nat)
    (hsmall : n ≤ randomProbes) (hbase : base < n) :
    ∀ i, i < n → stampAt data (findOldestOff data n base) ≤ stampAt data i := by
  obtain ⟨k, hk8, heq, hmin, _⟩ := findOldestOff_first_minimum data n base hbase
  have hn : 0 < n := by omega
  intro i hi
  have hj : ((i + n - base) % n) < randomProbes :=
    lt_of_lt_of_le (Nat.mod_lt _ hn) hsmall
  have hcov : (base + (i + n - base) % n) % n = i := by
    rw [Nat.add_mod_mod]
    have h1 : base + (i + n - base) = i + n := by omega
    rw [h1, Nat.add_mod_right, Nat.mod_eq_of_lt hi]
  have hle := hmin _ hj
  rwa [hcov] at hle

/-- Witness for C2 at a concrete cache of three live entries. -/
theorem C2_probe_first_minimum_witness :
    1 < 3 ∧
    (∃ k, k < randomProbes ∧
      findOldestOff [⟨5, 0, 0⟩, ⟨3, 1, 1⟩, ⟨4, 2, 2⟩] 3 1 = (1 + k) % 3 ∧
      (∀ j, j < randomProbes →
        stampAt [⟨5, 0, 0⟩, ⟨3, 1, 1⟩, ⟨4, 2, 2⟩]
            (findOldestOff [⟨5, 0, 0⟩, ⟨3, 1, 1⟩, ⟨4, 2, 2⟩] 3 1) ≤
          stampAt [⟨5, 0, 0⟩, ⟨3, 1, 1⟩, ⟨4, 2, 2⟩] ((1 + j) % 3)) ∧
      (∀ m, m < k →
        stampAt [⟨5, 0, 0⟩, ⟨3, 1, 1⟩, ⟨4, 2, 2⟩]
            (findOldestOff [⟨5, 0, 0⟩, ⟨3, 1, 1⟩, ⟨4, 2, 2⟩] 3 1) <
          stampAt [⟨5, 0, 0⟩, ⟨3, 1, 1⟩, ⟨4, 2, 2⟩] ((1 + m) % 3))) :=
  ⟨by decide, C2_probe_first_minimum [⟨5, 0, 0⟩, ⟨3, 1, 1⟩, ⟨4, 2, 2⟩] 3 1 (by decide)⟩

/-- C9: when a full cache holds n live entries with n at most the probe
count 8, the eight probe positions (base + j) mod n cover every occupied
slot whatever base is, so the victim returned by the eviction probe of
removeOldest / findOldest attains the global minimum of lastUsed: eviction
is exact LRU for caches no larger than the probe count. -/
theorem C9_probe_exact_when_small (data : List Entry) (n base : Nat)
    (hsmall : n ≤ randomProbes) (hbase : base < n) :
    findOldestOff data n base < n ∧
    ∀ i, i < n → stampAt data (findOldestOff data n base) ≤ stampAt data i :=
  ⟨findOldestOff_lt data n base hbase,
    findOldestOff_small_min data n base hsmall hbase⟩

/-- Witness for C9 at a full cache of 3 entries whose minimum stamp sits
outside a naive no-wrap window. -/
theorem C9_probe_exact_when_small_witness :
    3 ≤ randomProbes ∧ 2 < 3 ∧
    (findOldestOff [⟨9, 0, 0⟩, ⟨4, 1, 1⟩, ⟨7, 2, 2⟩] 3 2 < 3 ∧
      ∀ i, i < 3 →
        stampAt [⟨9, 0, 0⟩, ⟨4, 1, 1⟩, ⟨7, 2, 2⟩]
            (findOldestOff [⟨9, 0, 0⟩, ⟨4, 1, 1⟩, ⟨7, 2, 2⟩] 3 2) ≤
          stampAt [⟨9, 0, 0⟩, ⟨4, 1, 1⟩, ⟨7, 2, 2⟩] i) :=
  ⟨by decide, by decide,
    C9_probe_exact_when_small [⟨9, 0, 0⟩, ⟨4, 1, 1⟩, ⟨7, 2, 2⟩] 3 2 (by decide) (by decide)⟩

/-! Claims C10, C3, C7, C8. -/

/-- C10: Get on an absent key returns the zero value and found = false and
leaves the whole engine state unchanged, in both engines; in particular the
recency counter is not advanced on a miss. -/
theorem C10_get_miss_pure :
    (∀ (c : SLRU) (k : Nat), alookup c.items k = none →
      SLRU.Get c k = some (none, false, c)) ∧
    (∀ (g : GLRU) (k : Nat), alookup g.items k = none →
      GLRU.Get g k = some (none, false, g)) := by
  constructor
  · intro c k h
    simp [SLRU.Get, h]
  · intro g k h
    simp [GLRU.Get, h]

/-- Witness for C10 on concrete caches with a live entry and a missing key. -/
theorem C10_get_miss_pure_witness :
    alookup [(10, 0)] 99 = none ∧
    SLRU.Get ⟨[(10, 0)], [⟨1, 10, 77⟩], 2, 2, true⟩ 99 =
      some (none, false, ⟨[(10, 0)], [⟨1, 10, 77⟩], 2, 2, true⟩) ∧
    GLRU.Get ⟨[(10, 0)], [⟨1, 10, 77⟩], 2, 2, true⟩ 99 =
      some (none, false, ⟨[(10, 0)], [⟨1, 10, 77⟩], 2, 2, true⟩) :=
  ⟨by decide, C10_get_miss_pure.1 _ 99 (by decide), C10_get_miss_pure.2 _ 99 (by decide)⟩

/-- Counterexample to C3: the claim says construction with size == 0
succeeds; both constructors reject size 0 (the source guard is size <= 0,
not size < 0). -/
theorem C3_cex_zero_size_rejected :
    SLRU.NewLRU 0 false = none ∧ GLRU.NewLRU 0 false = none := by
  constructor <;> rfl

/-- C3 (amended): construction fails exactly when size <= 0; on a
degenerate engine state with size 0 (reachable only by zero-value struct
initialization, not through the constructor) every Add of a fresh key is a
no-op apart from the counter advance: it returns evicted = false and the
map and array stay empty, so Len() stays 0. -/
theorem C3_constructor_and_zero_size :
    (∀ (sz : Int) (oe : Bool), (SLRU.NewLRU sz oe).isSome ↔ 0 < sz) ∧
    (∀ (sz : Int) (oe : Bool), (GLRU.NewLRU sz oe).isSome ↔ 0 < sz) ∧
    (∀ (c : SLRU) (k v : Nat) (js : Nat → Nat) (base : Nat),
      c.size = 0 → c.items = [] → 0 ≤ c.counter → c.counter + 1 < 2 ^ 63 →
      SLRU.Add c k v js base =
        some (false, { c with counter := (if c.counter = 0 then 1 else c.counter) + 1 }, []) ∧
      SLRU.Len { c with counter := (if c.counter = 0 then 1 else c.counter) + 1 } = SLRU.Len c) ∧
    (∀ (c : GLRU) (k v : Nat) (j base : Nat),
      c.size = 0 → c.items = [] →
      GLRU.Add c k v j base =
        some (false,
          { c with counter := wrap64 ((if c.counter = 0 then 1 else c.counter) + 1) }, []) ∧
      GLRU.Len { c with counter := wrap64 ((if c.counter = 0 then 1 else c.counter) + 1) } =
        GLRU.Len c) := by
  refine ⟨?_, ?_, ?_, ?_⟩
  · intro sz oe
    by_cases h : sz ≤ 0 <;> simp [SLRU.NewLRU, h] <;> omega
  · intro sz oe
    by_cases h : sz ≤ 0 <;> simp [GLRU.NewLRU, h] <;> omega
  · intro c k v js base hsz hitems hc0 hc1
    have h2 : (2 : Int) ^ 63 = 9223372036854775808 := by norm_num
    rw [h2] at hc1
    have hok : ¬ ((if c.counter = 0 then 1 else c.counter) + 1 < 0 ∨
        (9223372036854775808 : Int) ≤ (if c.counter = 0 then 1 else c.counter) + 1) := by
      by_cases h : c.counter = 0 <;> simp [h] <;> omega
    refine ⟨?_, rfl⟩
    simp [SLRU.Add, SLRU.getCounter, hok, hitems, alookup, hsz]
  · intro c k v j base hsz hitems
    refine ⟨?_, rfl⟩
    simp [GLRU.Add, GLRU.getCounter, hitems, alookup, hsz]

/-- Witness for C3 covering both constructor directions and a zero-size
Add on both engines. -/
theorem C3_constructor_and_zero_size_witness :
    ((SLRU.NewLRU 3 true).isSome ↔ 0 < (3 : Int)) ∧
    ((GLRU.NewLRU (-1) true).isSome ↔ 0 < (-1 : Int)) ∧
    (SLRU.Add ⟨[], [], 5, 0, false⟩ 7 8 (fun _ => 0) 0 =
        some (false, { items := [], data := [], counter := 6, size := 0, onEvict := false }, []) ∧
      SLRU.Len { items := [], data := [], counter := 6, size := 0, onEvict := false } =
        SLRU.Len ⟨[], [], 5, 0, false⟩) ∧
    (GLRU.Add ⟨[], [], 5, 0, false⟩ 7 8 0 0 =
        some (false, { items := [], data := [], counter := 6, size := 0, onEvict := false }, []) ∧
      GLRU.Len { items := [], data := [], counter := 6, size := 0, onEvict := false } =
        GLRU.Len ⟨[], [], 5, 0, false⟩) := by
  refine ⟨C3_constructor_and_zero_size.1 3 true, C3_constructor_and_zero_size.2.1 (-1) true, ?_, ?_⟩
  · have h := C3_constructor_and_zero_size.2.2.1 ⟨[], [], 5, 0, false⟩ 7 8 (fun _ => 0) 0
      rfl rfl (by decide) (by decide)
    simpa using h
  · have h := C3_constructor_and_zero_size.2.2.2 ⟨[], [], 5, 0, false⟩ 7 8 0 0 rfl rfl
    simpa [wrap64] using h

/-- Counterexample to C7: a state whose map sends key 5 to slot 0 while
slot 0 stores key 6 is inconsistent, yet Get observes it and returns a
normal miss (some value, not an abort), contradicting the claim that such
a condition never surfaces as a normal return. -/
theorem C7_cex_mismatch_returns_normally :
    alookup [(5, 0)] 5 = some 0 ∧
    ((⟨7, 6, 123⟩ : Entry).key ≠ 5) ∧
    SLRU.Get ⟨[(5, 0)], [⟨7, 6, 123⟩], 3, 2, false⟩ 5 =
      some (none, false, ⟨[(5, 0)], [⟨7, 6, 123⟩], 3, 2, false⟩) ∧
    GLRU.Get ⟨[(5, 0)], [⟨7, 6, 123⟩], 3, 2, false⟩ 5 =
      some (none, false, ⟨[(5, 0)], [⟨7, 6, 123⟩], 3, 2, false⟩) := by
  refine ⟨by decide, by decide, by decide, by decide⟩

/-- C7 (amended): when Get observes a map entry pointing to an in-range
slot whose stored key differs from the looked-up key, both engines return
the zero value with found = false as a normal return, leaving the state
unchanged (the source comment reads: should never happen, but the check is
cheap); they do not abort. -/
theorem C7_get_mismatch_normal_miss :
    (∀ (c : SLRU) (k i : Nat), alookup c.items k = some i → i < c.data.length →
      (c.data.getD i e0).key ≠ k → SLRU.Get c k = some (none, false, c)) ∧
    (∀ (g : GLRU) (k i : Nat), alookup g.items k = some i → i < g.data.length →
      (g.data.getD i e0).key ≠ k → GLRU.Get g k = some (none, false, g)) := by
  constructor
  · intro c k i hl hi hk
    rw [List.getD_eq_getElem c.data e0 hi] at hk
    simp [SLRU.Get, hl, hi, hk]
  · intro g k i hl hi hk
    rw [List.getD_eq_getElem g.data e0 hi] at hk
    simp [GLRU.Get, hl, hi, hk]

/-- Witness for C7 on the inconsistent state of the counterexample. -/
theorem C7_get_mismatch_normal_miss_witness :
    alookup [(5, 0)] 5 = some 0 ∧ 0 < 1 ∧
    ((⟨7, 6, 123⟩ : Entry).key ≠ 5) ∧
    SLRU.Get ⟨[(5, 0)], [⟨7, 6, 123⟩], 9, 2, false⟩ 5 =
      some (none, false, ⟨[(5, 0)], [⟨7, 6, 123⟩], 9, 2, false⟩) ∧
    GLRU.Get ⟨[(5, 0)], [⟨7, 6, 123⟩], 9, 2, false⟩ 5 =
      some (none, false, ⟨[(5, 0)], [⟨7, 6, 123⟩], 9, 2, false⟩) :=
  ⟨by decide, by decide, by decide,
    C7_get_mismatch_normal_miss.1 _ 5 0 (by decide) (by decide) (by decide),
    C7_get_mismatch_normal_miss.2 _ 5 0 (by decide) (by decide) (by decide)⟩

/-- C8: the facade ContainsOrAdd returns (found = true, evicted = false)
and leaves the engine state (including the recency stamp of the key)
untouched when the key is present; otherwise it performs Add and reports
(found = false, the eviction result of Add), propagating an aborted Add. -/
theorem C8_containsOrAdd_spec :
    (∀ (c : SLRU) (k v : Nat) (js : Nat → Nat) (base : Nat),
      alookup c.items k ≠ none →
      Cache.ContainsOrAdd c k v js base = some ((true, false), c, [])) ∧
    (∀ (c : SLRU) (k v : Nat) (js : Nat → Nat) (base : Nat)
        (evicted : Bool) (c1 : SLRU) (ev : Events),
      alookup c.items k = none →
      SLRU.Add c k v js base = some (evicted, c1, ev) →
      Cache.ContainsOrAdd c k v js base = some ((false, evicted), c1, ev)) ∧
    (∀ (c : SLRU) (k v : Nat) (js : Nat → Nat) (base : Nat),
      alookup c.items k = none →
      SLRU.Add c k v js base = none →
      Cache.ContainsOrAdd c k v js base = none) := by
  refine ⟨?_, ?_, ?_⟩
  · intro c k v js base h
    have hc : SLRU.Contains c k = true := by
      simp [SLRU.Contains, Option.isSome_iff_ne_none, h]
    simp [Cache.ContainsOrAdd, hc]
  · intro c k v js base evicted c1 ev h hadd
    have hc : SLRU.Contains c k = false := by
      simp [SLRU.Contains, h]
    simp [Cache.ContainsOrAdd, hc, hadd]
  · intro c k v js base h hadd
    have hc : SLRU.Contains c k = false := by
      simp [SLRU.Contains, h]
    simp [Cache.ContainsOrAdd, hc, hadd]

/-- Witness for C8: the present-key case on a two-entry cache and the
absent-key case delegating to Add. -/
theorem C8_containsOrAdd_spec_witness :
    alookup [(10, 0), (11, 1)] 10 ≠ none ∧
    Cache.ContainsOrAdd ⟨[(10, 0), (11, 1)], [⟨1, 10, 77⟩, ⟨2, 11, 88⟩], 3, 2, true⟩ 10 5
        (fun _ => 0) 0 =
      some ((true, false), ⟨[(10, 0), (11, 1)], [⟨1, 10, 77⟩, ⟨2, 11, 88⟩], 3, 2, true⟩, []) ∧
    Cache.ContainsOrAdd ⟨[], [], 1, 1, false⟩ 4 5 (fun _ => 0) 0 =
      some ((false, false),
        ⟨[(4, 0)], [⟨1, 4, 5⟩], 2, 1, false⟩, []) := by
  refine ⟨by decide, C8_containsOrAdd_spec.1 _ 10 5 (fun _ => 0) 0 (by decide), ?_⟩
  exact C8_containsOrAdd_spec.2.1 _ 4 5 (fun _ => 0) 0 false _ [] (by decide) (by decide)

/-! List helpers for the well-formedness development. -/

theorem getD_set_self (l : List Entry) (i : Nat) (a : Entry) (h : i < l.length) :
    (l.set i a).getD i e0 = a := by
  rw [List.getD_eq_getElem?_getD, List.getElem?_set_self h]
  rfl

theorem getD_set_ne (l : List Entry) (i j : Nat) (a : Entry) (h : i ≠ j) :
    (l.set i a).getD j e0 = l.getD j e0 := by
  rw [List.getD_eq_getElem?_getD, List.getD_eq_getElem?_getD, List.getElem?_set_ne h]

theorem getD_append_left (l1 l2 : List Entry) (n : Nat) (h : n < l1.length) :
    (l1 ++ l2).getD n e0 = l1.getD n e0 := by
  rw [List.getD_eq_getElem?_getD, List.getD_eq_getElem?_getD, List.getElem?_append, if_pos h]

theorem getD_concat_self (l : List Entry) (a : Entry) :
    (l ++ [a]).getD l.length e0 = a := by
  rw [List.getD_eq_getElem?_getD, List.getElem?_concat_length]
  rfl

theorem getD_take (l : List Entry) (m n : Nat) (h : n < m) :
    (l.take m).getD n e0 = l.getD n e0 := by
  rw [List.getD_eq_getElem?_getD, List.getD_eq_getElem?_getD, List.getElem?_take, if_pos h]

theorem take_set_self (l : List Entry) (m : Nat) (a : Entry) :
    (l.set m a).take m = l.take m := by
  apply List.ext_getElem?
  intro n
  rw [List.getElem?_take, List.getElem?_take]
  by_cases h : n < m
  · rw [if_pos h, if_pos h, List.getElem?_set_ne (by omega)]
  · rw [if_neg h, if_neg h]

theorem mem_of_alookup_eq_some (m : List (Nat × Nat)) (k i : Nat)
    (h : alookup m k = some i) : (k, i) ∈ m := by
  induction m with
  | nil => simp [alookup] at h
  | cons p t ih =>
    obtain ⟨a, b⟩ := p
    by_cases hk : a = k
    · subst hk
      simp only [alookup, if_pos] at h
      cases h
      exact List.mem_cons_self _ _
    · simp only [alookup, if_neg hk] at h
      exact List.mem_cons_of_mem _ (ih h)

theorem alookup_eq_some_of_mem (m : List (Nat × Nat)) (k i : Nat)
    (hnd : (akeys m).Nodup) (h : (k, i) ∈ m) : alookup m k = some i := by
  induction m with
  | nil => simp at h
  | cons p t ih =>
    obtain ⟨a, b⟩ := p
    simp only [akeys, List.map_cons, List.nodup_cons] at hnd
    rcases List.mem_cons.mp h with h1 | h2
    · injection h1 with hk hi
      subst hk
      subst hi
      simp [alookup]
    · have hak : a ≠ k := by
        intro hk
        subst hk
        exact hnd.1 (by
          have : (a, i) ∈ t := h2
          simpa [akeys] using List.mem_map_of_mem Prod.fst this)
      simp only [alookup, if_neg hak]
      exact ih (by simpa [akeys] using hnd.2) h2

/-! Well-formedness of the generic engine (the bijection invariants I1-I5
of the specification, specialised to the generic engine where every slot in
[0, length) is live). -/

/-- Well-formed generic engine state: distinct map keys; every map binding
points into the array at a slot holding its key; every slot key is mapped
back to its slot; map size equals array length; length bounded by the
capacity; every slot is live (nonzero stamp). -/
structure WFG (c : GLRU) : Prop where
  nodup : (akeys c.items).Nodup
  mapsTo : ∀ p ∈ c.items, p.2 < c.data.length ∧ (c.data.getD p.2 e0).key = p.1
  slotTo : ∀ i, i < c.data.length → alookup c.items ((c.data.getD i e0).key) = some i
  sizeEq : c.items.length = c.data.length
  lenLe : (c.data.length : Int) ≤ c.size
  live : ∀ i, i < c.data.length → (c.data.getD i e0).lastUsed ≠ 0

theorem WFG.look {c : GLRU} (h : WFG c) {k i : Nat}
    (hl : alookup c.items k = some i) :
    i < c.data.length ∧ (c.data.getD i e0).key = k :=
  h.mapsTo (k, i) (mem_of_alookup_eq_some _ _ _ hl)

theorem WFG.key_inj {c : GLRU} (h : WFG c) {i j : Nat}
    (hi : i < c.data.length) (hj : j < c.data.length)
    (hk : (c.data.getD i e0).key = (c.data.getD j e0).key) : i = j := by
  have h1 := h.slotTo i hi
  have h2 := h.slotTo j hj
  rw [hk] at h1
  rw [h1] at h2
  exact (Option.some.injEq ..).mp h2

theorem WFG_mk (c : GLRU)
    (nodup : (akeys c.items).Nodup)
    (look : ∀ k i, alookup c.items k = some i →
      i < c.data.length ∧ (c.data.getD i e0).key = k)
    (slotTo : ∀ i, i < c.data.length → alookup c.items ((c.data.getD i e0).key) = some i)
    (sizeEq : c.items.length = c.data.length)
    (lenLe : (c.data.length : Int) ≤ c.size)
    (live : ∀ i, i < c.data.length → (c.data.getD i e0).lastUsed ≠ 0) : WFG c :=
  ⟨nodup,
    fun p hp => look p.1 p.2 (alookup_eq_some_of_mem _ _ _ nodup (by simpa using hp)),
    slotTo, sizeEq, lenLe, live⟩

/-! Preservation of well-formedness by the generic-engine operations. -/

theorem gswap_fields (c : GLRU) (i j : Nat) :
    (c.swap i j).size = c.size ∧ (c.swap i j).counter = c.counter ∧
    (c.swap i j).onEvict = c.onEvict ∧ (c.swap i j).data.length = c.data.length := by
  unfold GLRU.swap
  by_cases h : i = j <;> simp [h]

theorem gswap_data_getD (c : GLRU) (i j : Nat)
    (hi : i < c.data.length) (hj : j < c.data.length) :
    ∀ n, (c.swap i j).data.getD n e0 =
      if n = j then c.data.getD i e0
      else if n = i then c.data.getD j e0
      else c.data.getD n e0 := by
  intro n
  by_cases hij : i = j
  · subst hij
    simp only [GLRU.swap, if_pos rfl]
    by_cases hn : n = i <;> simp [hn]
  · simp only [GLRU.swap, if_neg hij]
    by_cases hnj : n = j
    · subst hnj
      simp only [if_pos rfl]
      exact getD_set_self _ _ _ (by simpa using hj)
    · by_cases hni : n = i
      · subst hni
        rw [if_neg hnj, if_pos rfl, getD_set_ne _ _ _ _ (fun hc => hnj hc.symm),
          getD_set_self _ _ _ hi]
      · rw [if_neg hnj, if_neg hni,
          getD_set_ne _ _ _ _ (fun hc => hnj hc.symm),
          getD_set_ne _ _ _ _ (fun hc => hni hc.symm)]

theorem gswap_items_lookup (c : GLRU) (h : WFG c) (i j : Nat)
    (hi : i < c.data.length) (hj : j < c.data.length) :
    ∀ k, alookup (c.swap i j).items k =
      if k = (c.data.getD j e0).key then some i
      else if k = (c.data.getD i e0).key then some j
      else alookup c.items k := by
  intro k
  by_cases hij : i = j
  · subst hij
    simp only [GLRU.swap, eq_self_iff_true, if_true]
    by_cases hk : k = (c.data.getD i e0).key
    · rw [if_pos hk, hk]
      exact h.slotTo i hi
    · rw [if_neg hk, if_neg hk]
  · have hkij : (c.data.getD i e0).key ≠ (c.data.getD j e0).key := by
      intro hc
      exact hij (h.key_inj hi hj hc)
    simp only [GLRU.swap, if_neg hij]
    by_cases hk : k = (c.data.getD j e0).key
    · subst hk
      simp [alookup_ainsert_self]
    · rw [if_neg hk]
      have step1 : alookup (ainsert (ainsert c.items (c.data.getD i e0).key j)
          (c.data.getD j e0).key i) k =
          alookup (ainsert c.items (c.data.getD i e0).key j) k :=
        alookup_ainsert_ne _ _ _ _ hk
      rw [step1]
      by_cases hk2 : k = (c.data.getD i e0).key
      · subst hk2
        simp [alookup_ainsert_self]
      · rw [if_neg hk2]
        exact alookup_ainsert_ne _ _ _ _ hk2

theorem gswap_akeys (c : GLRU) (h : WFG c) (i j : Nat)
    (hi : i < c.data.length) (hj : j < c.data.length) :
    akeys (c.swap i j).items = akeys c.items := by
  by_cases hij : i = j
  · subst hij
    simp [GLRU.swap]
  · simp only [GLRU.swap, if_neg hij]
    have h1 : alookup c.items (c.data.getD i e0).key ≠ none := by
      intro hc
      rw [h.slotTo i hi] at hc
      cases hc
    have hkij : (c.data.getD j e0).key ≠ (c.data.getD i e0).key := by
      intro hc
      exact hij (h.key_inj hi hj hc.symm)
    have h2 : alookup (ainsert c.items (c.data.getD i e0).key j)
        (c.data.getD j e0).key ≠ none := by
      intro hc
      rw [alookup_ainsert_ne _ _ _ _ hkij, h.slotTo j hj] at hc
      cases hc
    rw [akeys_ainsert _ _ _ h2, akeys_ainsert _ _ _ h1]

theorem gswap_items_length (c : GLRU) (h : WFG c) (i j : Nat)
    (hi : i < c.data.length) (hj : j < c.data.length) :
    (c.swap i j).items.length = c.items.length := by
  have hak := gswap_akeys c h i j hi hj
  have h1 : (akeys (c.swap i j).items).length = (akeys c.items).length := by rw [hak]
  simpa [akeys] using h1

theorem WFG_swap (c : GLRU) (h : WFG c) (i j : Nat)
    (hi : i < c.data.length) (hj : j < c.data.length) :
    WFG (c.swap i j) := by
  have hlen := (gswap_fields c i j).2.2.2
  have hsz := (gswap_fields c i j).1
  have hdata := gswap_data_getD c i j hi hj
  have hitems := gswap_items_lookup c h i j hi hj
  apply WFG_mk
  · rw [gswap_akeys c h i j hi hj]
    exact h.nodup
  · intro k i0 hl
    rw [hitems k] at hl
    by_cases hk : k = (c.data.getD j e0).key
    · rw [if_pos hk] at hl
      injection hl with hl2
      refine ⟨by rw [hlen]; omega, ?_⟩
      rw [hdata i0, ← hl2]
      by_cases hij : i = j
      · rw [if_pos hij, hij, hk]
      · rw [if_neg hij, if_pos rfl, hk]
    · rw [if_neg hk] at hl
      by_cases hk2 : k = (c.data.getD i e0).key
      · rw [if_pos hk2] at hl
        injection hl with hl2
        refine ⟨by rw [hlen]; omega, ?_⟩
        rw [hdata i0, ← hl2, if_pos rfl, hk2]
      · rw [if_neg hk2] at hl
        obtain ⟨hlt, hkey⟩ := h.look hl
        refine ⟨by rw [hlen]; omega, ?_⟩
        have hni : i0 ≠ i := by
          intro hc
          rw [hc] at hkey
          exact hk2 hkey.symm
        have hnj : i0 ≠ j := by
          intro hc
          rw [hc] at hkey
          exact hk hkey.symm
        rw [hdata i0, if_neg hnj, if_neg hni]
        exact hkey
  · intro i0 hi0
    rw [hlen] at hi0
    rw [hitems, hdata i0]
    by_cases hnj : i0 = j
    · rw [if_pos hnj]
      by_cases hc : (c.data.getD i e0).key = (c.data.getD j e0).key
      · rw [if_pos hc, hnj]
        have hij2 : i = j := h.key_inj hi hj hc
        rw [hij2]
      · rw [if_neg hc, if_pos rfl, hnj]
    · by_cases hni : i0 = i
      · rw [if_neg hnj, if_pos hni]
        rw [if_pos rfl, hni]
      · rw [if_neg hnj, if_neg hni]
        have hc1 : (c.data.getD i0 e0).key ≠ (c.data.getD j e0).key := by
          intro hc
          exact hnj (h.key_inj hi0 hj hc)
        have hc2 : (c.data.getD i0 e0).key ≠ (c.data.getD i e0).key := by
          intro hc
          exact hni (h.key_inj hi0 hi hc)
        rw [if_neg hc1, if_neg hc2]
        exact h.slotTo i0 hi0
  · rw [hlen, gswap_items_length c h i j hi hj, h.sizeEq]
  · rw [hlen, hsz]
    exact h.lenLe
  · intro i0 hi0
    rw [hlen] at hi0
    rw [hdata i0]
    by_cases hnj : i0 = j
    · rw [if_pos hnj]
      exact h.live i hi
    · by_cases hni : i0 = i
      · rw [if_neg hnj, if_pos hni]
        exact h.live j hj
      · rw [if_neg hnj, if_neg hni]
        exact h.live i0 hi0

theorem alookup_ne_none_of_mem_akeys (m : List (Nat × Nat)) (k : Nat)
    (h : k ∈ akeys m) : alookup m k ≠ none := by
  intro hc
  induction m with
  | nil => simp [akeys] at h
  | cons p t ih =>
    obtain ⟨a, b⟩ := p
    simp only [akeys, List.map_cons, List.mem_cons] at h
    by_cases hk : a = k
    · simp [alookup, hk] at hc
    · simp only [alookup, if_neg hk] at hc
      rcases h with h1 | h2
      · exact hk h1.symm
      · exact ih (by simpa [akeys] using h2) hc

theorem WFG_append (c : GLRU) (h : WFG c) (ent : Entry)
    (hk : alookup c.items ent.key = none) (hstamp : ent.lastUsed ≠ 0)
    (hcap : (c.data.length : Int) < c.size) :
    WFG { c with
      data := c.data ++ [ent],
      items := ainsert c.items ent.key c.data.length } := by
  have hnotmem : ent.key ∉ akeys c.items := by
    intro hmem
    exact alookup_ne_none_of_mem_akeys _ _ hmem hk
  have hlook : ∀ k, alookup (ainsert c.items ent.key c.data.length) k =
      if k = ent.key then some c.data.length else alookup c.items k := by
    intro k
    by_cases hke : k = ent.key
    · rw [if_pos hke, hke]
      exact alookup_ainsert_self _ _ _
    · rw [if_neg hke]
      exact alookup_ainsert_ne _ _ _ _ hke
  have hget : ∀ n, n < c.data.length → (c.data ++ [ent]).getD n e0 = c.data.getD n e0 :=
    fun n hn => getD_append_left _ _ n hn
  have hgetl : (c.data ++ [ent]).getD c.data.length e0 = ent := getD_concat_self _ _
  have hlen : (c.data ++ [ent]).length = c.data.length + 1 := by simp
  apply WFG_mk
  · show (akeys (ainsert c.items ent.key c.data.length)).Nodup
    rw [akeys_ainsert_notmem _ _ _ hk]
    simp only [List.nodup_append, List.nodup_cons, List.nodup_nil]
    refine ⟨h.nodup, by simp, ?_⟩
    intro x hx
    simp only [List.mem_singleton]
    intro hc
    subst hc
    exact hnotmem hx
  · intro k i0 hl
    show i0 < (c.data ++ [ent]).length ∧ ((c.data ++ [ent]).getD i0 e0).key = k
    rw [hlook k] at hl
    by_cases hke : k = ent.key
    · rw [if_pos hke] at hl
      injection hl with hl2
      rw [hlen, ← hl2, hgetl, hke]
      exact ⟨by omega, rfl⟩
    · rw [if_neg hke] at hl
      obtain ⟨hlt, hkey⟩ := h.look hl
      rw [hlen, hget i0 hlt]
      exact ⟨by omega, hkey⟩
  · intro i0 hi0
    show alookup (ainsert c.items ent.key c.data.length) (((c.data ++ [ent]).getD i0 e0).key) =
      some i0
    rw [hlen] at hi0
    by_cases hil : i0 = c.data.length
    · rw [hil, hgetl, hlook, if_pos rfl]
    · have hlt : i0 < c.data.length := by omega
      rw [hget i0 hlt, hlook]
      have hne : (c.data.getD i0 e0).key ≠ ent.key := by
        intro hc
        have := h.slotTo i0 hlt
        rw [hc, hk] at this
        cases this
      rw [if_neg hne]
      exact h.slotTo i0 hlt
  · show (ainsert c.items ent.key c.data.length).length = (c.data ++ [ent]).length
    rw [length_ainsert_of_notmem _ _ _ hk, hlen, h.sizeEq]
  · show ((c.data ++ [ent]).length : Int) ≤ c.size
    rw [hlen]
    push_cast
    omega
  · intro i0 hi0
    show ((c.data ++ [ent]).getD i0 e0).lastUsed ≠ 0
    rw [hlen] at hi0
    by_cases hil : i0 = c.data.length
    · rw [hil, hgetl]
      exact hstamp
    · have hlt : i0 < c.data.length := by omega
      rw [hget i0 hlt]
      exact h.live i0 hlt

theorem WFG_addShuffled (c : GLRU) (h : WFG c) (ent : Entry)
    (hk : alookup c.items ent.key = none) (hstamp : ent.lastUsed ≠ 0)
    (hne : (c.data.length : Int) ≠ c.size) (j : Nat) (hj : j ≤ c.data.length) :
    ∃ c2, c.addShuffled ent j = some c2 ∧ WFG c2 ∧
      c2.data.length = c.data.length + 1 ∧ c2.size = c.size ∧
      c2.counter = c.counter ∧ c2.onEvict = c.onEvict := by
  have hcap : (c.data.length : Int) < c.size := lt_of_le_of_ne h.lenLe hne
  set c1 : GLRU := { c with
    data := c.data ++ [ent],
    items := ainsert c.items ent.key c.data.length } with hc1
  have h1 : WFG c1 := WFG_append c h ent hk hstamp hcap
  have hlen1 : c1.data.length = c.data.length + 1 := by simp [hc1]
  refine ⟨c1.swap c.data.length j, ?_, ?_, ?_, ?_, ?_, ?_⟩
  · unfold GLRU.addShuffled
    rw [if_neg hne]
  · exact WFG_swap c1 h1 _ _ (by omega) (by omega)
  · rw [(gswap_fields c1 _ _).2.2.2, hlen1]
  · rw [(gswap_fields c1 _ _).1]
  · rw [(gswap_fields c1 _ _).2.1]
  · rw [(gswap_fields c1 _ _).2.2.1]

theorem WFG_removeLast (c : GLRU) (h : WFG c) (hpos : 0 < c.data.length) :
    WFG { c with
      data := c.data.take (c.data.length - 1),
      items := aerase c.items ((c.data.getD (c.data.length - 1) e0).key) } := by
  set klast := (c.data.getD (c.data.length - 1) e0).key with hkl
  have hlast : alookup c.items klast = some (c.data.length - 1) :=
    h.slotTo _ (by omega)
  have hlen : (c.data.take (c.data.length - 1)).length = c.data.length - 1 := by
    simp [List.length_take]
  apply WFG_mk
  · exact nodup_akeys_aerase _ _ h.nodup
  · intro k i0 hl
    show i0 < (c.data.take (c.data.length - 1)).length ∧
      ((c.data.take (c.data.length - 1)).getD i0 e0).key = k
    have hkne : k ≠ klast := by
      intro hc
      rw [hc, alookup_aerase_self _ _ h.nodup] at hl
      cases hl
    rw [alookup_aerase_ne _ _ _ hkne h.nodup] at hl
    obtain ⟨hlt, hkey⟩ := h.look hl
    have hne : i0 ≠ c.data.length - 1 := by
      intro hc
      rw [hc] at hkey
      exact hkne hkey.symm
    have hlt2 : i0 < c.data.length - 1 := by omega
    rw [hlen, getD_take _ _ _ hlt2]
    exact ⟨hlt2, hkey⟩
  · intro i0 hi0
    rw [hlen] at hi0
    show alookup (aerase c.items klast)
      (((c.data.take (c.data.length - 1)).getD i0 e0).key) = some i0
    rw [getD_take _ _ _ hi0]
    have hkne : (c.data.getD i0 e0).key ≠ klast := by
      intro hc
      have := h.key_inj (by omega : i0 < c.data.length) (by omega) hc
      omega
    rw [alookup_aerase_ne _ _ _ hkne h.nodup]
    exact h.slotTo i0 (by omega)
  · show (aerase c.items klast).length = (c.data.take (c.data.length - 1)).length
    have := length_aerase_of_mem c.items klast (by rw [hlast]; intro hc; cases hc)
    have hsizeEq := h.sizeEq
    rw [hlen]
    omega
  · show ((c.data.take (c.data.length - 1)).length : Int) ≤ c.size
    rw [hlen]
    have := h.lenLe
    have hc : ((c.data.length - 1 : Nat) : Int) ≤ (c.data.length : Int) := by
      push_cast
      omega
    omega
  · intro i0 hi0
    rw [hlen] at hi0
    show ((c.data.take (c.data.length - 1)).getD i0 e0).lastUsed ≠ 0
    rw [getD_take _ _ _ hi0]
    exact h.live i0 (by omega)

theorem GLRU_removeElement_swap (c : GLRU) (h : WFG c) (i : Nat)
    (hi : i < c.data.length) :
    ∃ c1, c.removeElement i (c.data.getD i e0) true =
        some (c1,
          if c.onEvict then [((c.data.getD i e0).key, (c.data.getD i e0).value)] else []) ∧
      WFG c1 ∧ c1.data.length + 1 = c.data.length ∧ c1.size = c.size ∧
      c1.counter = c.counter ∧ c1.onEvict = c.onEvict ∧
      alookup c1.items ((c.data.getD i e0).key) = none ∧
      c1.data = ((c.swap i (c.data.length - 1)).data).take (c.data.length - 1) := by
  have hguard : ¬ (c.size ≤ (i : Int) ∨ c.data.length = 0) := by
    push_neg
    constructor
    · have := h.lenLe
      have hc : (i : Int) < (c.data.length : Int) := by exact_mod_cast hi
      omega
    · omega
  have hj : c.data.length - 1 < c.data.length := by omega
  set c2 := c.swap i (c.data.length - 1) with hc2
  have h2 : WFG c2 := WFG_swap c h i (c.data.length - 1) hi hj
  have hlen2 : c2.data.length = c.data.length := (gswap_fields c i _).2.2.2
  have hklast : (c2.data.getD (c2.data.length - 1) e0).key = (c.data.getD i e0).key := by
    rw [hlen2, gswap_data_getD c i (c.data.length - 1) hi hj, if_pos rfl]
  set c1 : GLRU := { c2 with
    data := c2.data.take (c2.data.length - 1),
    items := aerase c2.items ((c2.data.getD (c2.data.length - 1) e0).key) } with hc1
  have h1 : WFG c1 := WFG_removeLast c2 h2 (by omega)
  refine ⟨c1, ?_, h1, ?_, ?_, ?_, ?_, ?_, ?_⟩
  · unfold GLRU.removeElement
    rw [if_neg hguard]
    simp only [if_pos]
    rw [← hc2]
    simp only [hc1, hklast]
    rw [take_set_self]
  · simp only [hc1]
    simp [List.length_take]
    omega
  · simp only [hc1]
    exact (gswap_fields c i _).1
  · simp only [hc1]
    exact (gswap_fields c i _).2.1
  · simp only [hc1]
    exact (gswap_fields c i _).2.2.1
  · simp only [hc1, hklast]
    rw [← hklast]
    exact alookup_aerase_self _ _ h2.nodup
  · simp only [hc1, hlen2]

/-- C4 (amended): on a well-formed generic-engine cache containing key k at
slot i, Remove(k) swaps slot i with the last slot, drops the last slot (the
storage length decreases by one, the capacity field is unchanged), deletes
the map entry of k, invokes the eviction callback (when configured) with
the removed key and value, and returns true; Remove of an absent key
returns false and changes nothing.  The string engine instead zeroes slot i
in place: the map entry is deleted and the callback invoked, but the
storage length does not decrease (see the counterexample). -/
theorem C4_remove_swap_truncate :
    (∀ (c : GLRU) (k i : Nat), WFG c → alookup c.items k = some i →
      ∃ c1, GLRU.Remove c k =
          some (true, c1, if c.onEvict then [(k, (c.data.getD i e0).value)] else []) ∧
        c1.data = ((c.swap i (c.data.length - 1)).data).take (c.data.length - 1) ∧
        c1.data.length + 1 = c.data.length ∧
        c1.size = c.size ∧
        alookup c1.items k = none) ∧
    (∀ (c : GLRU) (k : Nat), alookup c.items k = none →
      GLRU.Remove c k = some (false, c, [])) := by
  constructor
  · intro c k i hwf hl
    obtain ⟨hi, hkey⟩ := hwf.look hl
    obtain ⟨c1, hre, hwf1, hlen1, hsz1, _, _, hnone, hdata1⟩ :=
      GLRU_removeElement_swap c hwf i hi
    refine ⟨c1, ?_, hdata1, hlen1, hsz1, by rw [← hkey]; exact hnone⟩
    unfold GLRU.Remove
    rw [hl]
    simp only [if_pos hi]
    rw [hre, hkey]
  · intro c k hl
    unfold GLRU.Remove
    rw [hl]

theorem WFG_set_entry (c : GLRU) (h : WFG c) (i : Nat) (hi : i < c.data.length)
    (ent : Entry) (hkey : ent.key = (c.data.getD i e0).key) (hstamp : ent.lastUsed ≠ 0) :
    WFG { c with data := c.data.set i ent } := by
  have hlen : (c.data.set i ent).length = c.data.length := List.length_set ..
  have hget : ∀ n, (c.data.set i ent).getD n e0 =
      if n = i then ent else c.data.getD n e0 := by
    intro n
    by_cases hn : n = i
    · rw [if_pos hn, hn]
      exact getD_set_self _ _ _ hi
    · rw [if_neg hn]
      exact getD_set_ne _ _ _ _ (fun hc => hn hc.symm)
  apply WFG_mk
  · exact h.nodup
  · intro k i0 hl
    obtain ⟨hlt, hk0⟩ := h.look hl
    show i0 < (c.data.set i ent).length ∧ ((c.data.set i ent).getD i0 e0).key = k
    rw [hlen, hget i0]
    by_cases hn : i0 = i
    · rw [if_pos hn, hkey, ← hn]
      exact ⟨hlt, hk0⟩
    · rw [if_neg hn]
      exact ⟨hlt, hk0⟩
  · intro i0 hi0
    rw [hlen] at hi0
    show alookup c.items (((c.data.set i ent).getD i0 e0).key) = some i0
    rw [hget i0]
    by_cases hn : i0 = i
    · rw [if_pos hn, hkey, hn]
      exact h.slotTo i hi
    · rw [if_neg hn]
      exact h.slotTo i0 hi0
  · rw [hlen]
    exact h.sizeEq
  · rw [hlen]
    exact h.lenLe
  · intro i0 hi0
    rw [hlen] at hi0
    show (((c.data.set i ent).getD i0 e0)).lastUsed ≠ 0
    rw [hget i0]
    by_cases hn : i0 = i
    · rw [if_pos hn]
      exact hstamp
    · rw [if_neg hn]
      exact h.live i0 hi0

theorem WFG_evict_overwrite (c : GLRU) (h : WFG c) (off : Nat)
    (hoff : off < c.data.length) (key value : Nat) (now : Int)
    (hk : alookup c.items key = none) (hnow : now ≠ 0) :
    WFG { c with
      data := c.data.set off ⟨now, key, value⟩,
      items := ainsert (aerase c.items ((c.data.getD off e0).key)) key off } := by
  set vk := (c.data.getD off e0).key with hvk
  have hknotmem : key ∉ akeys (aerase c.items vk) := by
    intro hmem
    exact alookup_ne_none_of_mem_akeys _ _ hmem
      (by rw [alookup_aerase_ne _ _ _ ?_ h.nodup]
          · exact hk
          · intro hc
            rw [hc] at hk
            rw [h.slotTo off hoff] at hk
            cases hk)
  have hnd2 : (akeys (aerase c.items vk)).Nodup := nodup_akeys_aerase _ _ h.nodup
  have hlook : ∀ k2, alookup (ainsert (aerase c.items vk) key off) k2 =
      if k2 = key then some off
      else if k2 = vk then none
      else alookup c.items k2 := by
    intro k2
    by_cases h1 : k2 = key
    · rw [if_pos h1, h1]
      exact alookup_ainsert_self _ _ _
    · rw [if_neg h1, alookup_ainsert_ne _ _ _ _ h1]
      by_cases h2 : k2 = vk
      · rw [if_pos h2, h2]
        exact alookup_aerase_self _ _ h.nodup
      · rw [if_neg h2]
        exact alookup_aerase_ne _ _ _ h2 h.nodup
  have hlen : (c.data.set off ⟨now, key, value⟩).length = c.data.length := List.length_set ..
  have hget : ∀ n, (c.data.set off ⟨now, key, value⟩).getD n e0 =
      if n = off then (⟨now, key, value⟩ : Entry) else c.data.getD n e0 := by
    intro n
    by_cases hn : n = off
    · rw [if_pos hn, hn]
      exact getD_set_self _ _ _ hoff
    · rw [if_neg hn]
      exact getD_set_ne _ _ _ _ (fun hc => hn hc.symm)
  apply WFG_mk
  · show (akeys (ainsert (aerase c.items vk) key off)).Nodup
    rw [akeys_ainsert_notmem _ _ _ (alookup_none_of_not_mem_akeys _ _ hknotmem)]
    simp only [List.nodup_append, List.nodup_cons, List.nodup_nil]
    refine ⟨hnd2, by simp, ?_⟩
    intro x hx
    simp only [List.mem_singleton]
    intro hc
    subst hc
    exact hknotmem hx
  · intro k2 i0 hl
    rw [hlook k2] at hl
    show i0 < (c.data.set off ⟨now, key, value⟩).length ∧
      ((c.data.set off ⟨now, key, value⟩).getD i0 e0).key = k2
    rw [hlen, hget i0]
    by_cases h1 : k2 = key
    · rw [if_pos h1] at hl
      injection hl with hl2
      rw [← hl2, if_pos rfl, h1]
      exact ⟨hoff, rfl⟩
    · rw [if_neg h1] at hl
      by_cases h2 : k2 = vk
      · rw [if_pos h2] at hl
        cases hl
      · rw [if_neg h2] at hl
        obtain ⟨hlt, hk0⟩ := h.look hl
        have hne : i0 ≠ off := by
          intro hc
          rw [hc] at hk0
          exact h2 hk0.symm
        rw [if_neg hne]
        exact ⟨hlt, hk0⟩
  · intro i0 hi0
    rw [hlen] at hi0
    show alookup (ainsert (aerase c.items vk) key off)
      (((c.data.set off ⟨now, key, value⟩).getD i0 e0).key) = some i0
    rw [hget i0, hlook]
    by_cases hn : i0 = off
    · rw [if_pos hn]
      simp [hn]
    · rw [if_neg hn]
      have hk1 : (c.data.getD i0 e0).key ≠ key := by
        intro hc
        have := h.slotTo i0 hi0
        rw [hc, hk] at this
        cases this
      have hk2 : (c.data.getD i0 e0).key ≠ vk := by
        intro hc
        exact hn (h.key_inj hi0 hoff hc)
      rw [if_neg hk1, if_neg hk2]
      exact h.slotTo i0 hi0
  · show (ainsert (aerase c.items vk) key off).length =
      (c.data.set off ⟨now, key, value⟩).length
    rw [hlen,
      length_ainsert_of_notmem _ _ _ (alookup_none_of_not_mem_akeys _ _ hknotmem)]
    have hvkmem : alookup c.items vk ≠ none := by
      rw [h.slotTo off hoff]
      intro hc
      cases hc
    have := length_aerase_of_mem c.items vk hvkmem
    have hsz := h.sizeEq
    omega
  · rw [hlen]
    exact h.lenLe
  · intro i0 hi0
    rw [hlen] at hi0
    show (((c.data.set off ⟨now, key, value⟩).getD i0 e0)).lastUsed ≠ 0
    rw [hget i0]
    by_cases hn : i0 = off
    · rw [if_pos hn]
      exact hnow
    · rw [if_neg hn]
      exact h.live i0 hi0

theorem WFG_set_size (c : GLRU) (h : WFG c) (n : Int)
    (hn : (c.data.length : Int) ≤ n) : WFG { c with size := n } :=
  ⟨h.nodup, h.mapsTo, h.slotTo, h.sizeEq, hn, h.live⟩

theorem WFG_counter (c : GLRU) (h : WFG c) (x : Int) :
    WFG { c with counter := x } :=
  ⟨h.nodup, h.mapsTo, h.slotTo, h.sizeEq, h.lenLe, h.live⟩

theorem GLRU_getCounter_ne_zero (c : GLRU) : (c.getCounter).1 ≠ 0 := by
  unfold GLRU.getCounter
  by_cases h : c.counter = 0 <;> simp [h]

theorem WFG_Get (c : GLRU) (h : WFG c) (k : Nat) :
    ∀ v ok c1, GLRU.Get c k = some (v, ok, c1) → WFG c1 := by
  intro v ok c1 hg
  unfold GLRU.Get at hg
  cases hl : alookup c.items k with
  | none =>
    simp only [hl] at hg
    injection hg with hg2
    injection hg2 with _ hg3
    injection hg3 with _ hg4
    rw [← hg4]
    exact h
  | some i =>
    simp only [hl] at hg
    obtain ⟨hi, hkey⟩ := h.look hl
    rw [if_pos hi] at hg
    by_cases hmk : (c.data.getD i e0).key ≠ k
    · rw [if_pos hmk] at hg
      injection hg with hg2
      injection hg2 with _ hg3
      injection hg3 with _ hg4
      rw [← hg4]
      exact h
    · rw [if_neg hmk] at hg
      injection hg with hg2
      injection hg2 with _ hg3
      injection hg3 with _ hg4
      rw [← hg4]
      have h0 : WFG (c.getCounter).2 := by
        unfold GLRU.getCounter
        exact WFG_counter c h _
      have hik : (((c.getCounter).2).data.getD i e0).key = (c.data.getD i e0).key := rfl
      refine WFG_set_entry (c.getCounter).2 h0 i (by exact hi) _ ?_ ?_
      · exact rfl
      · exact GLRU_getCounter_ne_zero c

theorem WFG_Purge (c : GLRU) (h : WFG c) : WFG (c.Purge).1 := by
  refine ⟨?_, ?_, ?_, ?_, ?_, ?_⟩
  · show (akeys ([] : List (Nat × Nat))).Nodup
    simp [akeys]
  · intro p hp
    simp [GLRU.Purge] at hp
  · intro i hi
    simp [GLRU.Purge] at hi
  · rfl
  · show ((0 : Nat) : Int) ≤ c.size
    have := h.lenLe
    have h0 : (0 : Int) ≤ (c.data.length : Int) := by positivity
    omega
  · intro i hi
    simp [GLRU.Purge] at hi

theorem WFG_Add (c : GLRU) (h : WFG c) (k v j base : Nat) (hj : j ≤ c.data.length)
    (hbase : c.items.length ≠ 0 → base < c.items.length) :
    ∀ ev c1 events, GLRU.Add c k v j base = some (ev, c1, events) → WFG c1 := by
  intro ev c1 events hadd
  unfold GLRU.Add at hadd
  have h0 : WFG (c.getCounter).2 := by
    unfold GLRU.getCounter
    exact WFG_counter c h _
  have hnow : (c.getCounter).1 ≠ 0 := GLRU_getCounter_ne_zero c
  have hdata0 : ((c.getCounter).2).data = c.data := rfl
  have hitems0 : ((c.getCounter).2).items = c.items := rfl
  have hsize0 : ((c.getCounter).2).size = c.size := rfl
  cases hl : alookup c.items k with
  | some i =>
    simp only [hitems0, hl] at hadd
    injection hadd with hadd2
    injection hadd2 with _ hadd3
    injection hadd3 with hadd4 _
    rw [← hadd4]
    obtain ⟨hi, hkey⟩ := h.look hl
    exact WFG_set_entry (c.getCounter).2 h0 i hi _ rfl hnow
  | none =>
    simp only [hitems0, hl] at hadd
    by_cases hz : ((c.getCounter).2).size = 0
    · rw [if_pos hz] at hadd
      injection hadd with hadd2
      injection hadd2 with _ hadd3
      injection hadd3 with hadd4 _
      rw [← hadd4]
      exact h0
    · rw [if_neg hz] at hadd
      by_cases hfull : ((((c.getCounter).2).data.length : Int)) = ((c.getCounter).2).size
      · rw [if_pos hfull] at hadd
        have hlenpos : 0 < c.data.length := by
          by_contra hc
          apply hz
          rw [hsize0]
          rw [hdata0, hsize0] at hfull
          have hL0 : c.data.length = 0 := by omega
          rw [hL0] at hfull
          exact hfull.symm
        have hLpos : c.items.length ≠ 0 := by
          rw [h.sizeEq]
          omega
        have hbase2 : base < c.items.length := hbase hLpos
        set off := findOldestOff ((c.getCounter).2).data (((c.getCounter).2).items.length)
          base with hoffdef
        have hoff : off < c.items.length := by
          rw [hoffdef, hitems0]
          exact findOldestOff_lt _ _ _ hbase2
        have hoffd : off < c.data.length := by
          rw [← h.sizeEq]
          exact hoff
        have hfo : ((c.getCounter).2).findOldest base = some off := by
          unfold GLRU.findOldest
          rw [if_neg (by rw [hitems0]; exact hLpos)]
        simp only [hfo] at hadd
        have hguard : ¬ (((c.getCounter).2).size ≤ ((off : Nat) : Int) ∨
            ((c.getCounter).2).data.length = 0) := by
          push_neg
          rw [hsize0, hdata0]
          constructor
          · have hle := h.lenLe
            have hcast : ((off : Nat) : Int) < (c.data.length : Int) := by
              exact_mod_cast hoffd
            omega
          · omega
        have hre : ((c.getCounter).2).removeElement off
            (((c.getCounter).2).data.getD off e0) false =
            some ({ (c.getCounter).2 with
                items := aerase ((c.getCounter).2).items
                  ((((c.getCounter).2).data.getD off e0).key) },
              if ((c.getCounter).2).onEvict then
                [((((c.getCounter).2).data.getD off e0).key,
                  (((c.getCounter).2).data.getD off e0).value)]
              else []) := by
          unfold GLRU.removeElement
          rw [if_neg hguard]
          rfl
        simp only [hre] at hadd
        injection hadd with hadd2
        injection hadd2 with _ hadd3
        injection hadd3 with hadd4 _
        rw [← hadd4]
        exact WFG_evict_overwrite (c.getCounter).2 h0 off hoffd k v (c.getCounter).1
          (by rw [hitems0]; exact hl) hnow
      · rw [if_neg hfull] at hadd
        obtain ⟨c2, hsh, hwf2, _, _, _, _⟩ :=
          WFG_addShuffled (c.getCounter).2 h0 ⟨(c.getCounter).1, k, v⟩
            (by rw [hitems0]; exact hl) hnow (by rw [hdata0]; exact hfull) j
            (by rw [hdata0]; exact hj)
        simp only [hsh] at hadd
        injection hadd with hadd2
        injection hadd2 with _ hadd3
        injection hadd3 with hadd4 _
        rw [← hadd4]
        exact hwf2

theorem WFG_Remove (c : GLRU) (h : WFG c) (k : Nat) :
    ∀ p c1 eve, GLRU.Remove c k = some (p, c1, eve) → WFG c1 := by
  intro p c1 eve hr
  unfold GLRU.Remove at hr
  cases hl : alookup c.items k with
  | none =>
    simp only [hl] at hr
    injection hr with hr2
    injection hr2 with _ hr3
    injection hr3 with hr4 _
    rw [← hr4]
    exact h
  | some i =>
    obtain ⟨hi, _⟩ := h.look hl
    simp only [hl] at hr
    rw [if_pos hi] at hr
    obtain ⟨cx, hre, hwfx, _, _, _, _, _, _⟩ := GLRU_removeElement_swap c h i hi
    simp only [hre] at hr
    injection hr with hr2
    injection hr2 with _ hr3
    injection hr3 with hr4 _
    rw [← hr4]
    exact hwfx

/-! Resize machinery: the index-map rebuild over the sorted array and the
removal loop. -/

theorem rebuild_miss (entries : List Entry) :
    ∀ (m : List (Nat × Nat)) (idx k : Nat),
      (∀ e ∈ entries, e.lastUsed ≠ 0) → k ∉ entries.map Entry.key →
      alookup (rebuildAux m idx entries) k = alookup m k := by
  induction entries with
  | nil => intro m idx k _ _; rfl
  | cons e t ih =>
    intro m idx k hlive hk
    simp only [List.map_cons, List.mem_cons, not_or] at hk
    have he : e.lastUsed ≠ 0 := hlive e (List.mem_cons_self e t)
    simp only [rebuildAux, if_neg he]
    rw [ih (ainsert m e.key idx) (idx + 1) k
      (fun x hx => hlive x (List.mem_cons_of_mem e hx)) hk.2]
    exact alookup_ainsert_ne _ _ _ _ hk.1

theorem rebuild_hit (entries : List Entry) :
    ∀ (m : List (Nat × Nat)) (idx i : Nat),
      (∀ e ∈ entries, e.lastUsed ≠ 0) → (entries.map Entry.key).Nodup →
      i < entries.length →
      alookup (rebuildAux m idx entries) ((entries.getD i e0).key) = some (idx + i) := by
  induction entries with
  | nil => intro m idx i _ _ hi; simp at hi
  | cons e t ih =>
    intro m idx i hlive hnd hi
    have he : e.lastUsed ≠ 0 := hlive e (List.mem_cons_self e t)
    simp only [List.map_cons, List.nodup_cons] at hnd
    simp only [rebuildAux, if_neg he]
    match i with
    | 0 =>
      rw [List.getD_cons_zero]
      rw [rebuild_miss t (ainsert m e.key idx) (idx + 1) e.key
        (fun x hx => hlive x (List.mem_cons_of_mem e hx)) hnd.1]
      rw [alookup_ainsert_self]
      rfl
    | Nat.succ i2 =>
      rw [List.getD_cons_succ]
      have := ih (ainsert m e.key idx) (idx + 1) i2
        (fun x hx => hlive x (List.mem_cons_of_mem e hx)) hnd.2 (by simpa using hi)
      rw [this]
      congr 1
      omega

theorem rebuild_akeys (entries : List Entry) :
    ∀ (m : List (Nat × Nat)) (idx : Nat),
      (∀ e ∈ entries, e.lastUsed ≠ 0) → (∀ e ∈ entries, e.key ∈ akeys m) →
      akeys (rebuildAux m idx entries) = akeys m := by
  induction entries with
  | nil => intro m idx _ _; rfl
  | cons e t ih =>
    intro m idx hlive hmem
    have he : e.lastUsed ≠ 0 := hlive e (List.mem_cons_self e t)
    simp only [rebuildAux, if_neg he]
    have hke : alookup m e.key ≠ none :=
      alookup_ne_none_of_mem_akeys _ _ (hmem e (List.mem_cons_self e t))
    rw [ih (ainsert m e.key idx) (idx + 1)
      (fun x hx => hlive x (List.mem_cons_of_mem e hx))
      (fun x hx => by
        rw [akeys_ainsert _ _ _ hke]
        exact hmem x (List.mem_cons_of_mem e hx))]
    exact akeys_ainsert _ _ _ hke

theorem WFG_live_mem (c : GLRU) (h : WFG c) : ∀ e ∈ c.data, e.lastUsed ≠ 0 := by
  intro e he
  obtain ⟨i, hi, hei⟩ := List.mem_iff_getElem.mp he
  have := h.live i hi
  rwa [List.getD_eq_getElem _ _ hi, hei] at this

theorem WFG_key_mem (c : GLRU) (h : WFG c) : ∀ e ∈ c.data, e.key ∈ akeys c.items := by
  intro e he
  obtain ⟨i, hi, hei⟩ := List.mem_iff_getElem.mp he
  apply alookup_mem_akeys
  have hs := h.slotTo i hi
  rw [List.getD_eq_getElem _ _ hi, hei] at hs
  rw [hs]
  intro hc
  cases hc

theorem WFG_data_keys_nodup (c : GLRU) (h : WFG c) : (c.data.map Entry.key).Nodup := by
  rw [List.nodup_iff_injective_get]
  intro a b hab
  rcases a with ⟨a, ha⟩
  rcases b with ⟨b, hb⟩
  simp only [List.length_map] at ha hb
  simp only [List.get_eq_getElem, List.getElem_map] at hab
  have ha2 : (c.data.getD a e0).key = (c.data.getD b e0).key := by
    rw [List.getD_eq_getElem _ _ ha, List.getD_eq_getElem _ _ hb]
    exact hab
  have := h.key_inj ha hb ha2
  simpa using this

theorem WFG_sort_rebuild (c : GLRU) (h : WFG c) :
    WFG { c with
      data := sortByLastUsed c.data,
      items := rebuildAux c.items 0 (sortByLastUsed c.data) } ∧
    (sortByLastUsed c.data).length = c.data.length := by
  have hperm : (sortByLastUsed c.data).Perm c.data :=
    List.perm_insertionSort _ _
  have hlen : (sortByLastUsed c.data).length = c.data.length := hperm.length_eq
  have hmem : ∀ e ∈ sortByLastUsed c.data, e ∈ c.data := fun e he => hperm.mem_iff.mp he
  have hlive : ∀ e ∈ sortByLastUsed c.data, e.lastUsed ≠ 0 :=
    fun e he => WFG_live_mem c h e (hmem e he)
  have hkeymem : ∀ e ∈ sortByLastUsed c.data, e.key ∈ akeys c.items :=
    fun e he => WFG_key_mem c h e (hmem e he)
  have hkperm : ((sortByLastUsed c.data).map Entry.key).Perm (c.data.map Entry.key) :=
    hperm.map _
  have hknodup : ((sortByLastUsed c.data).map Entry.key).Nodup :=
    hkperm.nodup_iff.mpr (WFG_data_keys_nodup c h)
  have hak : akeys (rebuildAux c.items 0 (sortByLastUsed c.data)) = akeys c.items :=
    rebuild_akeys _ _ _ hlive hkeymem
  have haklen : (rebuildAux c.items 0 (sortByLastUsed c.data)).length = c.items.length := by
    have h1 : (akeys (rebuildAux c.items 0 (sortByLastUsed c.data))).length =
        (akeys c.items).length := by rw [hak]
    simpa [akeys] using h1
  refine ⟨WFG_mk _ ?_ ?_ ?_ ?_ ?_ ?_, hlen⟩
  · show (akeys (rebuildAux c.items 0 (sortByLastUsed c.data))).Nodup
    rw [hak]
    exact h.nodup
  · intro k i0 hl
    show i0 < (sortByLastUsed c.data).length ∧
      ((sortByLastUsed c.data).getD i0 e0).key = k
    by_cases hkm : k ∈ (sortByLastUsed c.data).map Entry.key
    · obtain ⟨e, he, hek⟩ := List.mem_map.mp hkm
      obtain ⟨i, hi, hei⟩ := List.mem_iff_getElem.mp he
      have hgd : ((sortByLastUsed c.data).getD i e0).key = k := by
        rw [List.getD_eq_getElem _ _ hi, hei, hek]
      have := rebuild_hit (sortByLastUsed c.data) c.items 0 i hlive hknodup hi
      rw [hgd] at this
      rw [this] at hl
      injection hl with hl2
      rw [← hl2]
      exact ⟨by simpa using hi, by simpa using hgd⟩
    · rw [rebuild_miss _ _ _ _ hlive hkm] at hl
      obtain ⟨hlt, hkey⟩ := h.look hl
      exfalso
      apply hkm
      apply hkperm.mem_iff.mpr
      apply List.mem_map.mpr
      refine ⟨c.data.getD i0 e0, ?_, hkey⟩
      rw [List.getD_eq_getElem _ _ hlt]
      exact List.getElem_mem _
  · intro i0 hi0
    show alookup (rebuildAux c.items 0 (sortByLastUsed c.data))
      (((sortByLastUsed c.data).getD i0 e0).key) = some i0
    have := rebuild_hit (sortByLastUsed c.data) c.items 0 i0 hlive hknodup
      (by simpa using hi0)
    simpa using this
  · show (rebuildAux c.items 0 (sortByLastUsed c.data)).length =
      (sortByLastUsed c.data).length
    rw [haklen, hlen, h.sizeEq]
  · show ((sortByLastUsed c.data).length : Int) ≤ c.size
    rw [hlen]
    exact h.lenLe
  · intro i0 hi0
    show (((sortByLastUsed c.data).getD i0 e0)).lastUsed ≠ 0
    apply hlive
    rw [List.getD_eq_getElem _ _ (by simpa using hi0)]
    exact List.getElem_mem _

theorem drop_last_singleton (l : List Entry) (hl : 0 < l.length) :
    l.drop (l.length - 1) = [l.getD (l.length - 1) e0] := by
  have hlen : (l.drop (l.length - 1)).length = 1 := by
    rw [List.length_drop]
    omega
  have hget : (l.drop (l.length - 1)).getD 0 e0 = l.getD (l.length - 1) e0 := by
    rw [List.getD_eq_getElem?_getD, List.getD_eq_getElem?_getD, List.getElem?_drop]
    first
    | rfl
    | (congr 1; omega)
  match hd : l.drop (l.length - 1) with
  | [] => rw [hd] at hlen; simp at hlen
  | [x] =>
    rw [hd] at hget
    rw [← hget]
    rfl
  | x :: y :: t => rw [hd] at hlen; simp at hlen

theorem split_last (l : List Entry) (hl : 0 < l.length) :
    l = l.take (l.length - 1) ++ [l.getD (l.length - 1) e0] := by
  have h1 := List.take_append_drop (l.length - 1) l
  rw [drop_last_singleton l hl] at h1
  exact h1.symm

theorem reverse_drop_step (l : List Entry) (m : Nat) (hl : 0 < l.length)
    (hm : m ≤ l.length - 1) :
    (l.drop m).reverse =
      l.getD (l.length - 1) e0 :: ((l.take (l.length - 1)).drop m).reverse := by
  have htlen : (l.take (l.length - 1)).length = l.length - 1 := by
    rw [List.length_take]
    omega
  have hsplit := split_last l hl
  have hstep : l.drop m = (l.take (l.length - 1)).drop m ++ [l.getD (l.length - 1) e0] := by
    conv =>
      lhs
      rw [hsplit]
    exact List.drop_append_of_le_length (by omega)
  rw [hstep, List.reverse_append]
  rfl

theorem GLRU_resizeLoop_some (oldSize : Nat) :
    ∀ (rem i : Nat) (c c2 : GLRU) (ev : Events),
      WFG c → c.data.length = oldSize - i → i ≤ oldSize →
      GLRU.resizeLoopAux oldSize c i rem = some (c2, ev) →
      WFG c2 ∧ c2.data = c.data.take (c.data.length - rem) ∧ rem ≤ c.data.length ∧
        c2.size = c.size ∧ c2.counter = c.counter ∧ c2.onEvict = c.onEvict ∧
        ev = (if c.onEvict then
          ((c.data.drop (c.data.length - rem)).reverse).map (fun e => (e.key, e.value))
          else []) := by
  intro rem
  induction rem with
  | zero =>
    intro i c c2 ev hwf hlen hi hloop
    unfold GLRU.resizeLoopAux at hloop
    injection hloop with hloop2
    injection hloop2 with h1 h2
    rw [← h1, ← h2]
    refine ⟨hwf, by rw [Nat.sub_zero, List.take_length], by omega, rfl, rfl, rfl, ?_⟩
    rw [Nat.sub_zero, List.drop_length]
    by_cases hoe : c.onEvict <;> simp [hoe]
  | succ rem2 ih =>
    intro i c c2 ev hwf hlen hi hloop
    unfold GLRU.resizeLoopAux at hloop
    by_cases hguard : ((oldSize : Int) - 1 - (i : Int) < 0 ∨
        (c.data.length : Int) ≤ (oldSize : Int) - 1 - (i : Int))
    · rw [if_pos hguard] at hloop
      cases hloop
    · rw [if_neg hguard] at hloop
      push_neg at hguard
      have hipos : i < oldSize := by
        have := hguard.1
        omega
      have hlenpos : 0 < c.data.length := by
        have h2 := hguard.2
        omega
      have hjt : ((oldSize : Int) - 1 - (i : Int)).toNat = c.data.length - 1 := by
        rw [hlen]
        omega
      rw [hjt] at hloop
      obtain ⟨cx, hre, hwfx, hlenx, hszx, hcntx, hoex, _, hdatax⟩ :=
        GLRU_removeElement_swap c hwf (c.data.length - 1) (by omega)
      have hswapid : c.swap (c.data.length - 1) (c.data.length - 1) = c := by
        unfold GLRU.swap
        rw [if_pos rfl]
      rw [hswapid] at hdatax
      simp only [hre] at hloop
      cases hrec : GLRU.resizeLoopAux oldSize cx (i + 1) rem2 with
      | none => rw [hrec] at hloop; cases hloop
      | some r2 =>
        obtain ⟨c2x, evs⟩ := r2
        rw [hrec] at hloop
        injection hloop with hloop2
        injection hloop2 with h1 h2
        have hlencx : cx.data.length = oldSize - (i + 1) := by omega
        obtain ⟨hwf2, hdata2, hrem2, hsz2, hcnt2, hoe2, hev2⟩ :=
          ih (i + 1) cx c2x evs hwfx hlencx (by omega) hrec
        have hcxlen : cx.data.length = c.data.length - 1 := by omega
        rw [← h1, ← h2]
        refine ⟨hwf2, ?_, by omega, ?_, ?_, ?_, ?_⟩
        · rw [hdata2, hcxlen, hdatax, List.take_take]
          congr 1
          omega
        · rw [hsz2, hszx]
        · rw [hcnt2, hcntx]
        · rw [hoe2, hoex]
        · rw [hev2, hoex, hcxlen, hdatax]
          have hstep := reverse_drop_step c.data (c.data.length - (rem2 + 1)) hlenpos
            (by omega)
          by_cases hoe : c.onEvict
          · rw [show c.data.length - 1 - rem2 = c.data.length - (rem2 + 1) by omega, hstep]
            simp [hoe]
          · simp [hoe]

theorem WFG_Resize (c : GLRU) (h : WFG c) (n : Int) :
    ∀ r c3 ev, GLRU.Resize c n = some (r, c3, ev) → WFG c3 := by
  intro r c3 ev hres
  unfold GLRU.Resize at hres
  obtain ⟨hwf1, hlen1⟩ := WFG_sort_rebuild c h
  cases hloop : GLRU.resizeLoopAux (sortByLastUsed c.data).length
      { c with
        data := sortByLastUsed c.data,
        items := rebuildAux c.items 0 (sortByLastUsed c.data) } 0
      (max 0 ((c.items.length : Int) - n)).toNat with
  | none =>
    simp only [hloop] at hres
    simp at hres
  | some r2 =>
    obtain ⟨c2, evs⟩ := r2
    simp only [hloop] at hres
    by_cases hn : n < 0
    · rw [if_pos hn] at hres
      cases hres
    · rw [if_neg hn] at hres
      have hc1len : ({ c with
          data := sortByLastUsed c.data,
          items := rebuildAux c.items 0 (sortByLastUsed c.data) } : GLRU).data.length =
          (sortByLastUsed c.data).length - 0 := by
        simp
      obtain ⟨hwf2, hdata2, hrem2, hsz2, hcnt2, hoe2, hev2⟩ :=
        GLRU_resizeLoop_some (sortByLastUsed c.data).length
          (max 0 ((c.items.length : Int) - n)).toNat 0 _ c2 evs hwf1 hc1len
          (by omega) hloop
      have hc2len : c2.data.length =
          (sortByLastUsed c.data).length - (max 0 ((c.items.length : Int) - n)).toNat := by
        rw [hdata2]
        simp [List.length_take]
    -- arithmetic: the surviving length is bounded by the new size
      have hL : c.items.length = c.data.length := h.sizeEq
      have hfin : (c2.data.length : Int) ≤ n := by
        rw [hc2len, hlen1]
        by_cases hlt : n < ((sortByLastUsed c.data).length : Int)
        · rw [hlen1] at hlt
          have htn : (max 0 ((c.items.length : Int) - n)).toNat = c.items.length - n.toNat := by
            omega
          rw [htn]
          omega
        · rw [hlen1] at hlt
          have : (max 0 ((c.items.length : Int) - n)).toNat ≤ c.items.length := by
            omega
          omega
      have hnd : (if n < ((sortByLastUsed c.data).length : Int) then
          if n.toNat ≤ c2.data.length then c2.data.take n.toNat else c2.data
          else c2.data) = c2.data := by
        by_cases hlt : n < ((sortByLastUsed c.data).length : Int)
        · rw [if_pos hlt]
          have heq : n.toNat = c2.data.length := by
            rw [hc2len, hlen1]
            rw [hlen1] at hlt
            omega
          rw [if_pos (by omega), heq, List.take_length]
        · rw [if_neg hlt]
      rw [hnd] at hres
      injection hres with hres2
      injection hres2 with _ hres3
      injection hres3 with hres4 _
      rw [← hres4]
      exact WFG_set_size c2 hwf2 n hfin

/-- C5 (amended): after every public operation of the generic engine on a
well-formed cache, the index map and the storage array are again in
bijection (every map binding points to a slot holding its key, every slot
key is mapped back to its slot, and the map size equals the number of live
slots, which for this engine is the full storage length).  The random draws
are constrained exactly as the engine draws them (a swap target at most the
pre-insertion length, a probe base below Len when Len is nonzero).  The
string engine violates the bijection: its Resize on a storage containing an
empty hole strands a live key in the map (see the counterexample). -/
theorem C5_wellformedness_preserved :
    ∀ c : GLRU, WFG c →
      (∀ k v j base ev c1 events, j ≤ c.data.length →
        (c.items.length ≠ 0 → base < c.items.length) →
        GLRU.Add c k v j base = some (ev, c1, events) → WFG c1) ∧
      (∀ k v ok c1, GLRU.Get c k = some (v, ok, c1) → WFG c1) ∧
      (∀ k p c1 eve, GLRU.Remove c k = some (p, c1, eve) → WFG c1) ∧
      WFG (c.Purge).1 ∧
      (∀ n r c3 ev, GLRU.Resize c n = some (r, c3, ev) → WFG c3) := by
  intro c h
  refine ⟨?_, ?_, ?_, WFG_Purge c h, ?_⟩
  · intro k v j base ev c1 events hj hbase hadd
    exact WFG_Add c h k v j base hj hbase ev c1 events hadd
  · intro k v ok c1 hg
    exact WFG_Get c h k v ok c1 hg
  · intro k p c1 eve hr
    exact WFG_Remove c h k p c1 eve hr
  · intro n r c3 ev hres
    exact WFG_Resize c h n r c3 ev hres

/-! Concrete run used by several counterexamples: a string-engine cache of
capacity 2 filled with keys 10 and 11, after which key 10 is removed,
leaving an empty hole inside the storage prefix. -/

/-- Fresh string-engine cache of capacity 2 with a callback registered. -/
def cexS0 : SLRU := ⟨[], [], 1, 2, true⟩

/-- After Add(10, 77). -/
def cexS1 : SLRU := ⟨[(10, 0)], [⟨1, 10, 77⟩], 2, 2, true⟩

/-- After Add(11, 88) (the fill-up shuffle drew the identity). -/
def cexS2 : SLRU := ⟨[(10, 0), (11, 1)], [⟨1, 10, 77⟩, ⟨2, 11, 88⟩], 3, 2, true⟩

/-- After Remove(10): slot 0 is an empty hole, the storage length is
still 2 while only one entry is live. -/
def cexS3 : SLRU := ⟨[(11, 1)], [⟨0, 0, 0⟩, ⟨2, 11, 88⟩], 3, 2, true⟩

/-- Result of Resize(0) on cexS3: the sole live entry 11 is stranded in
the map while the storage is emptied, and no callback fired. -/
def cexS5 : SLRU := ⟨[(11, 0)], [], 3, 0, true⟩

/-- Number of live (nonzero-stamp) slots of a storage array. -/
def liveCount (data : List Entry) : Nat :=
  (data.filter (fun e => e.lastUsed != 0)).length

/-- Bijection invariant of claim C5 for the string engine, allowing holes:
map bindings point to live slots holding their key, live slots are mapped
back, and the map size equals the live-slot count. -/
def SBij (c : SLRU) : Prop :=
  (∀ p ∈ c.items, p.2 < c.data.length ∧ (c.data.getD p.2 e0).key = p.1 ∧
    (c.data.getD p.2 e0).lastUsed ≠ 0) ∧
  (∀ i, i < c.data.length → (c.data.getD i e0).lastUsed ≠ 0 →
    alookup c.items ((c.data.getD i e0).key) = some i) ∧
  c.items.length = liveCount c.data

instance (c : SLRU) : Decidable (SBij c) := by
  unfold SBij
  infer_instance

/-- Counterexample to C1: the run reaches cexS3 whose number of live
entries (1) is strictly below the capacity (2), yet Add of the fresh key
12 returns evicted = true (and destroys nothing: no callback fires),
because the string engine tests the storage length, not the live count. -/
theorem C1_cex_add_reports_eviction_below_capacity :
    SLRU.NewLRU 2 true = some cexS0 ∧
    SLRU.Add cexS0 10 77 (fun _ => 1) 0 = some (false, cexS1, []) ∧
    SLRU.Add cexS1 11 88 (fun _ => 1) 0 = some (false, cexS2, []) ∧
    SLRU.Remove cexS2 10 = some (true, cexS3, [(10, 77)]) ∧
    liveCount cexS3.data = 1 ∧ cexS3.size = 2 ∧
    SLRU.Add cexS3 12 99 (fun _ => 1) 0 =
      some (true, ⟨[(11, 1), (12, 0)], [⟨3, 12, 99⟩, ⟨2, 11, 88⟩], 4, 2, true⟩, []) := by
  refine ⟨by decide, by decide, by decide, by decide, by decide, by decide, by decide⟩

/-- Counterexample to C4: the string-engine Remove does not swap with the
last slot and does not drop it; the storage length stays 2 after removing
key 10 from a cache of two entries (the claim says it decreases by one). -/
theorem C4_cex_string_remove_keeps_length :
    SLRU.NewLRU 2 true = some cexS0 ∧
    SLRU.Add cexS0 10 77 (fun _ => 1) 0 = some (false, cexS1, []) ∧
    SLRU.Add cexS1 11 88 (fun _ => 1) 0 = some (false, cexS2, []) ∧
    cexS2.data.length = 2 ∧
    SLRU.Remove cexS2 10 = some (true, cexS3, [(10, 77)]) ∧
    cexS3.data.length = 2 := by
  refine ⟨by decide, by decide, by decide, by decide, by decide, by decide⟩

/-- Counterexample to C5: cexS3 satisfies the bijection invariant of the
claim (with the hole not live), Resize is a public operation, and the
resulting state cexS5 violates it: the map still holds key 11 at slot 0
while the storage is empty. -/
theorem C5_cex_string_resize_breaks_bijection :
    SLRU.NewLRU 2 true = some cexS0 ∧
    SLRU.Add cexS0 10 77 (fun _ => 1) 0 = some (false, cexS1, []) ∧
    SLRU.Add cexS1 11 88 (fun _ => 1) 0 = some (false, cexS2, []) ∧
    SLRU.Remove cexS2 10 = some (true, cexS3, [(10, 77)]) ∧
    SBij cexS3 ∧
    SLRU.Resize cexS3 0 (fun _ => 0) = some (1, cexS5, []) ∧
    ¬ SBij cexS5 := by
  refine ⟨by decide, by decide, by decide, by decide, by decide, by decide, by decide⟩

/-- Counterexample to C6: on cexS3 (one live entry, capacity 2, callback
registered), Resize(0) must by the claim remove exactly one live entry and
invoke the callback once; the code returns 1 but fires no callback and
leaves the live key 11 in the map: the removal loop consumed the hole
instead of the live entry. -/
theorem C6_cex_string_resize_counts_hole :
    SLRU.NewLRU 2 true = some cexS0 ∧
    SLRU.Add cexS0 10 77 (fun _ => 1) 0 = some (false, cexS1, []) ∧
    SLRU.Add cexS1 11 88 (fun _ => 1) 0 = some (false, cexS2, []) ∧
    SLRU.Remove cexS2 10 = some (true, cexS3, [(10, 77)]) ∧
    cexS3.onEvict = true ∧ SLRU.Len cexS3 = 1 ∧
    SLRU.Resize cexS3 0 (fun _ => 0) = some (1, cexS5, []) ∧
    SLRU.Len cexS5 = 1 := by
  refine ⟨by decide, by decide, by decide, by decide, by decide, by decide, by decide,
    by decide⟩

/-- Well-formed generic cache used by witnesses: two live entries. -/
def cexG2 : GLRU := ⟨[(10, 0), (11, 1)], [⟨1, 10, 77⟩, ⟨2, 11, 88⟩], 3, 2, true⟩

/-- Witness for C5: all five public operations applied at a concrete
well-formed two-entry cache; each resulting state is well-formed. -/
theorem C5_wellformedness_preserved_witness :
    WFG (⟨[(11, 1), (12, 0)], [⟨3, 12, 99⟩, ⟨2, 11, 88⟩], 4, 2, true⟩ : GLRU) ∧
    WFG (⟨[(10, 0), (11, 1)], [⟨3, 10, 77⟩, ⟨2, 11, 88⟩], 4, 2, true⟩ : GLRU) ∧
    WFG (⟨[(11, 0)], [⟨2, 11, 88⟩], 3, 2, true⟩ : GLRU) ∧
    WFG ((GLRU.Purge cexG2).1) ∧
    WFG (⟨[(11, 0)], [⟨2, 11, 88⟩], 3, 1, true⟩ : GLRU) := by
  have hwf : WFG cexG2 := by
    refine ⟨?_, ?_, ?_, ?_, ?_, ?_⟩ <;> decide
  obtain ⟨hAdd, hGet, hRemove, hPurge, hResize⟩ := C5_wellformedness_preserved cexG2 hwf
  refine ⟨?_, ?_, ?_, hPurge, ?_⟩
  · exact hAdd 12 99 0 0 true _ [(10, 77)] (by decide) (by decide) (by decide)
  · exact hGet 10 (some 77) true _ (by decide)
  · exact hRemove 10 true _ [(10, 77)] (by decide)
  · exact hResize 1 1 _ [(10, 77)] (by decide)

/-- Witness for C4 at a concrete two-entry generic cache. -/
theorem C4_remove_swap_truncate_witness :
    WFG cexG2 ∧
    (∃ c1, GLRU.Remove cexG2 10 =
        some (true, c1, if cexG2.onEvict then [(10, (cexG2.data.getD 0 e0).value)] else []) ∧
      c1.data = ((cexG2.swap 0 (cexG2.data.length - 1)).data).take (cexG2.data.length - 1) ∧
      c1.data.length + 1 = cexG2.data.length ∧
      c1.size = cexG2.size ∧
      alookup c1.items 10 = none) ∧
    GLRU.Remove cexG2 99 = some (false, cexG2, []) := by
  have hwf : WFG cexG2 := by
    refine ⟨?_, ?_, ?_, ?_, ?_, ?_⟩ <;> decide
  exact ⟨hwf, C4_remove_swap_truncate.1 cexG2 10 0 hwf (by decide),
    C4_remove_swap_truncate.2 cexG2 99 (by decide)⟩

/-! Exact characterization of the generic-engine Resize (claim C6). -/

instance : IsTotal Entry (fun a b => b.lastUsed ≤ a.lastUsed) :=
  ⟨fun a b => le_total b.lastUsed a.lastUsed⟩

instance : IsTrans Entry (fun a b => b.lastUsed ≤ a.lastUsed) :=
  ⟨fun _ _ _ h1 h2 => le_trans h2 h1⟩

theorem GLRU_resizeLoop_total (oldSize : Nat) :
    ∀ (rem i : Nat) (c : GLRU), WFG c → c.data.length = oldSize - i →
      i + rem ≤ oldSize →
      ∃ c2 ev, GLRU.resizeLoopAux oldSize c i rem = some (c2, ev) := by
  intro rem
  induction rem with
  | zero =>
    intro i c _ _ _
    exact ⟨c, [], rfl⟩
  | succ rem2 ih =>
    intro i c hwf hlen hb
    have hipos : i < oldSize := by omega
    have hlenpos : 0 < c.data.length := by omega
    have hguard : ¬ ((oldSize : Int) - 1 - (i : Int) < 0 ∨
        (c.data.length : Int) ≤ (oldSize : Int) - 1 - (i : Int)) := by
      push_neg
      constructor
      · omega
      · rw [hlen]
        push_cast
        omega
    have hjt : ((oldSize : Int) - 1 - (i : Int)).toNat = c.data.length - 1 := by
      rw [hlen]
      omega
    obtain ⟨cx, hre, hwfx, hlenx, _, _, _, _, _⟩ :=
      GLRU_removeElement_swap c hwf (c.data.length - 1) (by omega)
    obtain ⟨c2, ev2, hrec⟩ := ih (i + 1) cx hwfx (by omega) (by omega)
    refine ⟨c2, (if c.onEvict then
      [((c.data.getD (c.data.length - 1) e0).key,
        (c.data.getD (c.data.length - 1) e0).value)] else []) ++ ev2, ?_⟩
    unfold GLRU.resizeLoopAux
    rw [if_neg hguard, hjt]
    simp only [hre, hrec]

/-- C6 (amended): on a well-formed generic-engine cache whose live stamps
are pairwise distinct, Resize(n) with n >= 0 removes exactly
max(0, L - n) live entries, namely those with the smallest lastUsed
stamps (it sorts by lastUsed descending, so empty slots would sort last,
and truncates the tail), invokes the eviction callback once for each
removed entry, returns that count, and installs the new capacity; the
surviving storage is exactly the sorted prefix: the generic engine
performs no re-randomizing shuffle.  The string engine does end its Resize
with a full shuffle, but on storages containing empty holes its removal
loop can consume holes and remove fewer live entries than the count it
returns (see the counterexample). -/
theorem C6_resize_removes_oldest_exactly (c : GLRU) (n : Int) (hwf : WFG c)
    (hdist : List.Pairwise (fun a b => a.lastUsed ≠ b.lastUsed) c.data)
    (hn : 0 ≤ n) :
    ∃ c3 ev, GLRU.Resize c n = some (max 0 ((c.items.length : Int) - n), c3, ev) ∧
      c3.data = (sortByLastUsed c.data).take
        (c.data.length - (max 0 ((c.items.length : Int) - n)).toNat) ∧
      c3.size = n ∧
      (c.onEvict = true → ev.length = (max 0 ((c.items.length : Int) - n)).toNat) ∧
      (∀ p ∈ ev, ∃ e ∈ c.data, p = (e.key, e.value) ∧
        ∀ e2 ∈ c3.data, e.lastUsed < e2.lastUsed) ∧
      WFG c3 := by
  obtain ⟨hwf1, hlen1⟩ := WFG_sort_rebuild c hwf
  have hL : c.items.length = c.data.length := hwf.sizeEq
  have hdiffle : (max 0 ((c.items.length : Int) - n)).toNat ≤ c.data.length := by
    omega
  have hc1len : ({ c with
      data := sortByLastUsed c.data,
      items := rebuildAux c.items 0 (sortByLastUsed c.data) } : GLRU).data.length =
      (sortByLastUsed c.data).length - 0 := by
    simp
  obtain ⟨c2, evs, hloop⟩ :=
    GLRU_resizeLoop_total (sortByLastUsed c.data).length
      (max 0 ((c.items.length : Int) - n)).toNat 0 _ hwf1 hc1len
      (by rw [hlen1]; omega)
  obtain ⟨hwf2, hdata2, hrem2, hsz2, _, hoe2, hev2⟩ :=
    GLRU_resizeLoop_some (sortByLastUsed c.data).length
      (max 0 ((c.items.length : Int) - n)).toNat 0 _ c2 evs hwf1 hc1len
      (by omega) hloop
  have hc1data : ({ c with
      data := sortByLastUsed c.data,
      items := rebuildAux c.items 0 (sortByLastUsed c.data) } : GLRU).data =
      sortByLastUsed c.data := rfl
  rw [hc1data] at hdata2 hev2
  rw [hlen1] at hdata2 hev2
  have hc2len : c2.data.length =
      c.data.length - (max 0 ((c.items.length : Int) - n)).toNat := by
    rw [hdata2]
    simp only [List.length_take, hlen1]
    omega
  have hfin : (c2.data.length : Int) ≤ n := by
    rw [hc2len]
    omega
  have hnd : (if n < (((sortByLastUsed c.data).length) : Int) then
      if n.toNat ≤ c2.data.length then c2.data.take n.toNat else c2.data
      else c2.data) = c2.data := by
    by_cases hlt : n < (((sortByLastUsed c.data).length) : Int)
    · rw [if_pos hlt]
      have heq : n.toNat = c2.data.length := by
        rw [hc2len]
        rw [hlen1] at hlt
        omega
      rw [if_pos (by omega), heq, List.take_length]
    · rw [if_neg hlt]
  have hres : GLRU.Resize c n =
      some (max 0 ((c.items.length : Int) - n),
        { c2 with size := n, data := c2.data }, evs) := by
    unfold GLRU.Resize
    simp only [hloop]
    rw [if_neg (by omega : ¬ n < 0), hnd]
  have hsorted : List.Sorted (fun a b => b.lastUsed ≤ a.lastUsed)
      (sortByLastUsed c.data) :=
    List.sorted_insertionSort _ _
  have hperm : (sortByLastUsed c.data).Perm c.data := List.perm_insertionSort _ _
  have hdists : List.Pairwise (fun a b => a.lastUsed ≠ b.lastUsed)
      (sortByLastUsed c.data) :=
    (List.Perm.pairwise_iff (fun {a b} h => h.symm) hperm).mpr hdist
  have hstrict : List.Pairwise (fun a b => b.lastUsed < a.lastUsed)
      (sortByLastUsed c.data) := by
    have hand := List.Pairwise.and hsorted hdists
    exact hand.imp (fun hab => lt_of_le_of_ne hab.1 (Ne.symm hab.2))
  refine ⟨{ c2 with size := n, data := c2.data }, evs, hres, ?_, rfl, ?_, ?_, ?_⟩
  · exact hdata2
  · intro hoe
    have hoec1 : ({ c with
        data := sortByLastUsed c.data,
        items := rebuildAux c.items 0 (sortByLastUsed c.data) } : GLRU).onEvict =
        true := hoe
    rw [hev2, if_pos hoec1]
    simp only [List.length_map, List.length_reverse, List.length_drop]
    omega
  · intro p hp
    have hoec1 : ({ c with
        data := sortByLastUsed c.data,
        items := rebuildAux c.items 0 (sortByLastUsed c.data) } : GLRU).onEvict =
        c.onEvict := rfl
    rw [hev2] at hp
    by_cases hoe : ({ c with
        data := sortByLastUsed c.data,
        items := rebuildAux c.items 0 (sortByLastUsed c.data) } : GLRU).onEvict = true
    · rw [if_pos hoe] at hp
      obtain ⟨e, he, hpe⟩ := List.mem_map.mp hp
      have he2 : e ∈ (sortByLastUsed c.data).drop
          (c.data.length - (max 0 ((c.items.length : Int) - n)).toNat) :=
        List.mem_reverse.mp he
      refine ⟨e, ?_, hpe.symm, ?_⟩
      · exact hperm.mem_iff.mp (List.mem_of_mem_drop he2)
      · intro e2 he22
        rw [hdata2] at he22
        exact List.Sorted.rel_of_mem_take_of_mem_drop hstrict he22 he2
    · rw [if_neg hoe] at hp
      cases hp
  · exact WFG_set_size c2 hwf2 n hfin

/-- Witness for C6 at a concrete two-entry generic cache resized to 1. -/
theorem C6_resize_removes_oldest_exactly_witness :
    (0 : Int) ≤ 1 ∧
    (∃ c3 ev, GLRU.Resize cexG2 1 = some (max 0 ((cexG2.items.length : Int) - 1), c3, ev) ∧
      c3.data = (sortByLastUsed cexG2.data).take
        (cexG2.data.length - (max 0 ((cexG2.items.length : Int) - 1)).toNat) ∧
      c3.size = 1 ∧
      (cexG2.onEvict = true → ev.length = (max 0 ((cexG2.items.length : Int) - 1)).toNat) ∧
      (∀ p ∈ ev, ∃ e ∈ cexG2.data, p = (e.key, e.value) ∧
        ∀ e2 ∈ c3.data, e.lastUsed < e2.lastUsed) ∧
      WFG c3) := by
  have hwf : WFG cexG2 := by
    refine ⟨?_, ?_, ?_, ?_, ?_, ?_⟩ <;> decide
  exact ⟨by decide, C6_resize_removes_oldest_exactly cexG2 1 hwf (by decide) (by decide)⟩

/-! String-engine Add: membership through the fill-up shuffle (claim C1). -/

theorem sswapStep_fields (c : SLRU) (i j : Nat) :
    (c.swapStep i j).counter = c.counter ∧ (c.swapStep i j).size = c.size ∧
    (c.swapStep i j).onEvict = c.onEvict ∧
    (c.swapStep i j).data.length = c.data.length := by
  refine ⟨rfl, rfl, rfl, ?_⟩
  simp [SLRU.swapStep]

theorem mem_sswapStep (c : SLRU) (i j : Nat) (hi : i < c.data.length)
    (hj : j < c.data.length) (a : Entry) (ha : a ∈ c.data) :
    a ∈ (c.swapStep i j).data := by
  obtain ⟨n, hna⟩ := List.mem_iff_getElem?.mp ha
  have hn : n < c.data.length := by
    by_contra hc
    rw [List.getElem?_eq_none (by omega)] at hna
    cases hna
  apply List.mem_iff_getElem?.mpr
  have hgdi : c.data.getD i e0 = (c.data[i]?).getD e0 := List.getD_eq_getElem?_getD ..
  have hgdj : c.data.getD j e0 = (c.data[j]?).getD e0 := List.getD_eq_getElem?_getD ..
  by_cases hni : n = i
  · refine ⟨j, ?_⟩
    show ((c.data.set i (c.data.getD j e0)).set j (c.data.getD i e0))[j]? = some a
    rw [List.getElem?_set_self (by simpa using hj)]
    rw [hgdi, ← hni, hna]
    rfl
  · by_cases hnj : n = j
    · by_cases hij : i = j
      · refine ⟨j, ?_⟩
        show ((c.data.set i (c.data.getD j e0)).set j (c.data.getD i e0))[j]? = some a
        rw [List.getElem?_set_self (by simpa using hj)]
        rw [hgdi, hij, ← hnj, hna]
        rfl
      · refine ⟨i, ?_⟩
        show ((c.data.set i (c.data.getD j e0)).set j (c.data.getD i e0))[i]? = some a
        rw [List.getElem?_set_ne (fun hc => hij hc.symm),
          List.getElem?_set_self hi]
        rw [hgdj, ← hnj, hna]
        rfl
    · refine ⟨n, ?_⟩
      show ((c.data.set i (c.data.getD j e0)).set j (c.data.getD i e0))[n]? = some a
      rw [List.getElem?_set_ne (fun hc => hnj hc.symm),
        List.getElem?_set_ne (fun hc => hni hc.symm)]
      exact hna

theorem shuffleAux_len (js : Nat → Nat) :
    ∀ (m : Nat) (c : SLRU), (SLRU.shuffleAux js m c).data.length = c.data.length := by
  intro m
  induction m with
  | zero => intro c; rfl
  | succ m2 ih =>
    intro c
    show (SLRU.shuffleAux js m2 (c.swapStep (m2 + 1) (js (m2 + 1)))).data.length =
      c.data.length
    rw [ih, (sswapStep_fields c (m2 + 1) (js (m2 + 1))).2.2.2]

theorem shuffleAux_fields (js : Nat → Nat) :
    ∀ (m : Nat) (c : SLRU), (SLRU.shuffleAux js m c).counter = c.counter ∧
      (SLRU.shuffleAux js m c).size = c.size ∧
      (SLRU.shuffleAux js m c).onEvict = c.onEvict := by
  intro m
  induction m with
  | zero => intro c; exact ⟨rfl, rfl, rfl⟩
  | succ m2 ih =>
    intro c
    obtain ⟨h1, h2, h3⟩ := ih (c.swapStep (m2 + 1) (js (m2 + 1)))
    exact ⟨h1, h2, h3⟩

theorem mem_shuffleAux (js : Nat → Nat) (hjs : ∀ m, js m ≤ m) :
    ∀ (m : Nat) (c : SLRU), m < c.data.length →
      ∀ a ∈ c.data, a ∈ (SLRU.shuffleAux js m c).data := by
  intro m
  induction m with
  | zero => intro c _ a ha; exact ha
  | succ m2 ih =>
    intro c hm a ha
    show a ∈ (SLRU.shuffleAux js m2 (c.swapStep (m2 + 1) (js (m2 + 1)))).data
    have hlen : (c.swapStep (m2 + 1) (js (m2 + 1))).data.length = c.data.length :=
      (sswapStep_fields c _ _).2.2.2
    apply ih
    · omega
    · exact mem_sswapStep c (m2 + 1) (js (m2 + 1)) hm
        (by have := hjs (m2 + 1); omega) a ha

theorem mem_shuffle (c : SLRU) (js : Nat → Nat) (hjs : ∀ m, js m ≤ m)
    (a : Entry) (ha : a ∈ c.data) : a ∈ (c.shuffle js).data := by
  unfold SLRU.shuffle
  have hpos : 0 < c.data.length := List.length_pos.mpr (by
    intro hc
    rw [hc] at ha
    cases ha)
  exact mem_shuffleAux js hjs (c.data.length - 1) c (by omega) a ha

theorem shuffle_len (c : SLRU) (js : Nat → Nat) :
    (c.shuffle js).data.length = c.data.length :=
  shuffleAux_len js (c.data.length - 1) c

/-- C1 (amended): for an Add of a key not in the cache with positive
capacity, the string engine branches on the storage length, not the number
of live entries.  If the storage length is below capacity, the new entry
stamped with the advanced counter is appended (and possibly shuffled) and
Add returns evicted = false with no callback.  If the storage length
equals capacity, the probe picks the victim slot, the new entry overwrites
that slot, the key maps to it, and Add returns evicted = true; when the
victim slot is live it is destroyed (callback invoked, map entry removed),
but when it is an empty hole nothing is destroyed and no callback fires
even though evicted = true is returned.  After a Remove, the storage
length can exceed the live count, so Add can report an eviction while the
live count is below capacity (see the counterexample). -/
theorem C1_add_fresh_key (c : SLRU) (key value : Nat) (js : Nat → Nat) (base : Nat)
    (hk : alookup c.items key = none) (hsz : 0 < c.size)
    (hc0 : 0 ≤ c.counter) (hc1 : c.counter + 1 < 2 ^ 63)
    (hjs : ∀ m, js m ≤ m) :
    ((c.data.length : Int) < c.size →
      ∃ c3, SLRU.Add c key value js base = some (false, c3, []) ∧
        (⟨(if c.counter = 0 then 1 else c.counter), key, value⟩ : Entry) ∈ c3.data ∧
        c3.data.length = c.data.length + 1) ∧
    ((c.data.length : Int) = c.size → base < c.items.length →
      ∃ c3 ev, SLRU.Add c key value js base = some (true, c3, ev) ∧
        c3.data.length = c.data.length ∧
        c3.data = c.data.set (findOldestOff c.data c.items.length base)
          ⟨(if c.counter = 0 then 1 else c.counter), key, value⟩ ∧
        alookup c3.items key = some (findOldestOff c.data c.items.length base) ∧
        ((c.data.getD (findOldestOff c.data c.items.length base) e0).lastUsed ≠ 0 →
          ev = (if c.onEvict then
            [((c.data.getD (findOldestOff c.data c.items.length base) e0).key,
              (c.data.getD (findOldestOff c.data c.items.length base) e0).value)]
            else []) ∧
          c3.items = ainsert (aerase c.items
            ((c.data.getD (findOldestOff c.data c.items.length base) e0).key)) key
            (findOldestOff c.data c.items.length base)) ∧
        ((c.data.getD (findOldestOff c.data c.items.length base) e0).lastUsed = 0 →
          ev = [] ∧
          c3.items = ainsert c.items key (findOldestOff c.data c.items.length base))) := by
  have h2 : (2 : Int) ^ 63 = 9223372036854775808 := by norm_num
  rw [h2] at hc1
  set now : Int := if c.counter = 0 then 1 else c.counter with hnow
  have hok : ¬ (now + 1 < 0 ∨ (9223372036854775808 : Int) ≤ now + 1) := by
    rw [hnow]
    by_cases h : c.counter = 0 <;> simp [h] <;> omega
  have hgc : c.getCounter = some (now, { c with counter := now + 1 }) := by
    unfold SLRU.getCounter
    rw [← hnow]
    rw [if_neg (by rw [h2]; exact hok)]
  constructor
  · intro hlt
    unfold SLRU.Add
    rw [hgc]
    simp only [hk]
    rw [if_neg (by show ¬ c.size = 0; omega)]
    rw [if_pos (by exact hlt : ((({ c with counter := now + 1 } : SLRU).data.length : Int)) <
      ({ c with counter := now + 1 } : SLRU).size)]
    set c2 : SLRU := { c with
      counter := now + 1,
      data := c.data ++ [⟨now, key, value⟩],
      items := ainsert c.items key c.data.length } with hc2
    have hmem2 : (⟨now, key, value⟩ : Entry) ∈ c2.data := by
      rw [hc2]
      simp
    have hlen2 : c2.data.length = c.data.length + 1 := by
      rw [hc2]
      simp
    by_cases hfill : ((c2.data.length : Int)) = c2.size
    · refine ⟨c2.shuffle js, ?_, ?_, ?_⟩
      · simp only [if_pos hfill]
      · exact mem_shuffle c2 js hjs _ hmem2
      · rw [shuffle_len, hlen2]
    · refine ⟨c2, ?_, hmem2, hlen2⟩
      simp only [if_neg hfill]
  · intro heq hbase
    unfold SLRU.Add
    rw [hgc]
    simp only [hk]
    rw [if_neg (by show ¬ c.size = 0; omega)]
    rw [if_neg (by
      show ¬ ((c.data.length : Int)) < c.size
      omega)]
    have hL0 : ({ c with counter := now + 1 } : SLRU).items.length = c.items.length := rfl
    set off := findOldestOff c.data c.items.length base with hoff
    have hro : ({ c with counter := now + 1 } : SLRU).removeOldest base =
        ((off : Int),
          (if (c.data.getD off e0).lastUsed = 0 then ({ c with counter := now + 1 } : SLRU)
            else { c with
              counter := now + 1,
              data := c.data.set off e0,
              items := aerase c.items ((c.data.getD off e0).key) }),
          (if (c.data.getD off e0).lastUsed = 0 then ([] : Events)
            else if c.onEvict then
              [((c.data.getD off e0).key, (c.data.getD off e0).value)] else [])) := by
      unfold SLRU.removeOldest SLRU.removeElement
      dsimp only
      rw [if_neg (by show ¬ c.items.length = 0; omega), ← hoff]
      by_cases hv : (c.data.getD off e0).lastUsed = 0
      · simp only [if_pos hv]
      · simp only [if_neg hv]
    simp only [hro]
    by_cases hv : (c.data.getD off e0).lastUsed = 0
    · simp only [if_pos hv]
      refine ⟨_, _, rfl, ?_, rfl, ?_, ?_, ?_⟩
      · simp
      · exact alookup_ainsert_self _ _ _
      · intro hc
        exact absurd hv hc
      · intro _
        exact ⟨rfl, rfl⟩
    · simp only [if_neg hv]
      refine ⟨_, _, rfl, ?_, ?_, ?_, ?_, ?_⟩
      · simp
      · show (c.data.set off e0).set off ⟨now, key, value⟩ =
          c.data.set off ⟨now, key, value⟩
        exact List.set_set ..
      · exact alookup_ainsert_self _ _ _
      · intro _
        exact ⟨rfl, rfl⟩
      · intro hc
        exact absurd hc hv

/-- Witness for C1: Add of fresh key 12 on the full two-entry cache cexS2,
exercising the eviction branch of the amended claim. -/
theorem C1_add_fresh_key_witness :
    alookup cexS2.items 12 = none ∧ (0 : Int) < cexS2.size ∧
    (0 : Int) ≤ cexS2.counter ∧ cexS2.counter + 1 < 2 ^ 63 ∧
    (((cexS2.data.length : Int) < cexS2.size →
      ∃ c3, SLRU.Add cexS2 12 99 (fun _ => 0) 0 = some (false, c3, []) ∧
        (⟨(if cexS2.counter = 0 then 1 else cexS2.counter), 12, 99⟩ : Entry) ∈ c3.data ∧
        c3.data.length = cexS2.data.length + 1) ∧
    ((cexS2.data.length : Int) = cexS2.size → 0 < cexS2.items.length →
      ∃ c3 ev, SLRU.Add cexS2 12 99 (fun _ => 0) 0 = some (true, c3, ev) ∧
        c3.data.length = cexS2.data.length ∧
        c3.data = cexS2.data.set (findOldestOff cexS2.data cexS2.items.length 0)
          ⟨(if cexS2.counter = 0 then 1 else cexS2.counter), 12, 99⟩ ∧
        alookup c3.items 12 = some (findOldestOff cexS2.data cexS2.items.length 0) ∧
        ((cexS2.data.getD (findOldestOff cexS2.data cexS2.items.length 0) e0).lastUsed ≠ 0 →
          ev = (if cexS2.onEvict then
            [((cexS2.data.getD (findOldestOff cexS2.data cexS2.items.length 0) e0).key,
              (cexS2.data.getD (findOldestOff cexS2.data cexS2.items.length 0) e0).value)]
            else []) ∧
          c3.items = ainsert (aerase cexS2.items
            ((cexS2.data.getD (findOldestOff cexS2.data cexS2.items.length 0) e0).key)) 12
            (findOldestOff cexS2.data cexS2.items.length 0)) ∧
        ((cexS2.data.getD (findOldestOff cexS2.data cexS2.items.length 0) e0).lastUsed = 0 →
          ev = [] ∧
          c3.items = ainsert cexS2.items 12
            (findOldestOff cexS2.data cexS2.items.length 0)))) :=
  ⟨by decide, by decide, by decide, by decide,
    C1_add_fresh_key cexS2 12 99 (fun _ => 0) 0 (by decide) (by decide) (by decide)
      (by decide) (fun m => Nat.zero_le m)⟩
